import Mathlib

/-!
Verification of the AsciiMath-to-MathML translation core.

This file is a shallow embedding of the translation engine: the `Scanner`
class, the symbol constructors, the symbol table, and the mutually recursive
grammar procedures (`parseSExpr`, `sexprParser`, `iexprParser`, `exprParser`,
`matrixParser`, `matrixRowParser`) together with the per-symbol rendering
procedures, and the exported entry point `asciiToMathML`.

Modelling conventions:
* The input string is a `List Char`; the cursor `pos` is an `Int`, because the
  original code stores the sentinel `-1` (returned by `skipWhitespace` at end
  of input) into `pos` in the matrix parsing routines.
* Rendering output is a `String` built by concatenation, mirroring the
  template literals of the source (including their exact text).
* Per-symbol rendering closures are defunctionalized into the `SymAction`
  type: each constructor corresponds to one closure-producing helper of the
  source (`text`, `number`, `error`, `ident`, `oper`, `textOper`,
  `leftBracket`/`rightBracket`/`rightMatrix` (`brA`), the six `unary...`
  variants, the two `binary...` variants, and `matrixParser` for matrix left
  brackets).  `runParser` dispatches on it.
* The seven mutually recursive procedures are packaged in the structure
  `ParseFuns` and defined by structural recursion on a fuel parameter
  (`parseFuns`), so that all definitions compute by `rfl`/`decide`.  Running
  out of fuel yields `none`; a theorem below shows the fuel chosen by the
  entry point never runs out, which settles termination.
* Default arguments of the source helpers are expanded at call sites
  (e.g. `ident("a")` becomes `ident "a" "a"`).
* The braces `\x7b`/`\x7d` in string and char literals denote the literal
  characters U+007B and U+007D; astral-plane characters written as UTF-16
  surrogate pairs in the source are written as single code points via `uchar`.
-/

namespace AsciiMath

/-- One character-substitution table: 26 uppercase then 26 lowercase entries. -/
abbrev CharTable := List String

/-- A single (possibly astral-plane) character as a string. -/
def uchar (n : Nat) : String := String.singleton (Char.ofNat n)

/-- JavaScript `\s` whitespace characters (the set matched by `/\s/`). -/
def jsWs (c : Char) : Bool :=
  c = ' ' || c = '\t' || c = '\n' || c = '\x0b' || c = '\x0c' || c = '\r' ||
  c = Char.ofNat 0xa0 || c = Char.ofNat 0x1680 ||
  (Char.ofNat 0x2000 ≤ c && c ≤ Char.ofNat 0x200a) ||
  c = Char.ofNat 0x2028 || c = Char.ofNat 0x2029 || c = Char.ofNat 0x202f ||
  c = Char.ofNat 0x205f || c = Char.ofNat 0x3000 || c = Char.ofNat 0xfeff

/-- JavaScript `/[\d\.]/`: a decimal digit or a dot. -/
def digitOrDot (c : Char) : Bool := c.isDigit || c = '.'

/-- Kinds of symbols; determines grammar behaviour. -/
inductive SymbolKind where
  | Default
  | UnderOver
  | LeftBracket
  | RightBracket
  | MatrixLeftBracket
  | MatrixRightBracket
  | MatrixCellSep
  | MatrixRowSep
  | Eof
deriving DecidableEq, BEq, Repr

/-- Defunctionalized rendering closures attached to symbols.  Each
constructor captures exactly the data closed over by the corresponding
closure in the source. -/
inductive SymAction where
  | textA (content : String)
  | numberA (str : String)
  | errorA (msg : String)
  | emptyA
  | identA (output : String)
  | operA (output : String)
  | textOperA (output : String)
  | brA (output : Option String)
  | unaryA (operStr : String)
  | unaryEmbedA (tag : String)
  | unaryEmbedWithA (tag : String) (arg2 : String)
  | unarySurroundA (left : String) (right : String)
  | unaryAttrA (tag : String) (attr : String)
  | unaryCharTableA (table : CharTable)
  | binaryEmbedA (tag : String)
  | binaryAttrA (tag : String) (attr : String)
  | matrixA (leftBracket : String)
deriving DecidableEq, Repr

/-- A symbol: kind, the notation text that triggers it (`input`), and its
rendering action. -/
structure Symbol where
  kind : SymbolKind
  input : String
  action : SymAction
deriving DecidableEq, Repr

/-- Scanner state: the input, the cursor, and the stack of character tables.
The symbol-table reference of the source class is a process-wide constant
(`symbolTable` below) and is therefore not part of the state. -/
structure Scanner where
  input : List Char
  pos : Int
  charTables : List CharTable
deriving DecidableEq, Repr

/-- `eof` method of the scanner. -/
def Scanner.eof (s : Scanner) : Bool := (s.input.length : Int) ≤ s.pos

/-- `skipWhitespace`: advance over whitespace (mutating the cursor) and
return the updated scanner together with the method's return value
(the new cursor, or a negative number past end of input).  For a negative
cursor the loop body never runs (a negative JavaScript index reads
`undefined`, which does not match `/\s/`), and the conditional returns the
unchanged (negative) cursor. -/
def Scanner.skipWhitespace (s : Scanner) : Scanner × Int :=
  let s1 := if 0 ≤ s.pos then
      { s with pos := s.pos + ((s.input.drop s.pos.toNat).takeWhile jsWs).length }
    else s
  (s1, if s1.pos < (s1.input.length : Int) then s1.pos else -1)

/-- `pushCharTable`. -/
def Scanner.pushCharTable (s : Scanner) (table : CharTable) : Scanner :=
  { s with charTables := s.charTables ++ [table] }

/-- `popCharTable`. -/
def Scanner.popCharTable (s : Scanner) : Scanner :=
  { s with charTables := s.charTables.dropLast }

/-- `charTable`: the topmost table, or `none` when the stack is empty. -/
def Scanner.charTable (s : Scanner) : Option CharTable := s.charTables.getLast?

/-- `convertText`: map letters through the table; all other characters pass
through.  The tables have 52 entries, so the lookups are always in range;
the `getD` fallback mirrors the specified behaviour for absent entries. -/
def convertText (tx : String) (table : Option CharTable) : String :=
  match table with
  | none => tx
  | some tbl =>
    tx.toList.foldl (fun res c =>
      let ch := c.toNat
      res ++ (if 65 ≤ ch && ch < 91 then tbl.getD (ch - 65) (String.singleton c)
        else if 97 ≤ ch && ch < 123 then tbl.getD (ch - 71) (String.singleton c)
        else String.singleton c)) ""

/-- `text` symbol constructor. -/
def text (input : String) : Symbol := ⟨.Default, input, .textA input⟩

/-- `number` symbol constructor. -/
def number (input : String) : Symbol := ⟨.Default, input, .numberA input⟩

/-- `error` symbol constructor: note the `input` field is empty. -/
def error (msg : String) : Symbol := ⟨.Default, "", .errorA msg⟩

/-- `eof` symbol constructor. -/
def eof : Symbol := ⟨.Eof, "", .emptyA⟩

/-- `ident` symbol constructor (default argument expanded at call sites). -/
def ident (input output : String) : Symbol := ⟨.Default, input, .identA output⟩

/-- `oper` symbol constructor. -/
def oper (input output : String) : Symbol := ⟨.Default, input, .operA output⟩

/-- `textOper` symbol constructor. -/
def textOper (input output : String) : Symbol := ⟨.Default, input, .textOperA output⟩

/-- `underOverOper` symbol constructor: renders like `oper` but with kind
`UnderOver`. -/
def underOverOper (input operStr : String) : Symbol := ⟨.UnderOver, input, .operA operStr⟩

/-- `leftBracket` symbol constructor; `none` output means invisible. -/
def leftBracket (input : String) (output : Option String) : Symbol :=
  ⟨.LeftBracket, input, .brA output⟩

/-- `rightBracket` symbol constructor. -/
def rightBracket (input : String) (output : Option String) : Symbol :=
  ⟨.RightBracket, input, .brA output⟩

/-- `unary` symbol constructor: the action captures the rendered operator,
as `unaryParser` does. -/
def unary (input operStr : String) : Symbol :=
  ⟨.Default, input, .unaryA ("<mo>" ++ operStr ++ "</mo>")⟩

/-- `unaryEmbed` symbol constructor. -/
def unaryEmbed (input tag : String) : Symbol := ⟨.Default, input, .unaryEmbedA tag⟩

/-- `unaryUnderOver` symbol constructor. -/
def unaryUnderOver (input tag arg2 : String) : Symbol :=
  ⟨.UnderOver, input, .unaryEmbedWithA tag ("<mo>" ++ arg2 ++ "</mo>")⟩

/-- `unarySurround` symbol constructor. -/
def unarySurround (input left right : String) : Symbol :=
  ⟨.Default, input, .unarySurroundA ("<mo>" ++ left ++ "</mo>") ("<mo>" ++ right ++ "</mo>")⟩

/-- `unaryAttr` symbol constructor. -/
def unaryAttr (input tag attr : String) : Symbol := ⟨.Default, input, .unaryAttrA tag attr⟩

/-- `unaryCharTable` symbol constructor. -/
def unaryCharTable (input : String) (table : CharTable) : Symbol :=
  ⟨.Default, input, .unaryCharTableA table⟩

/-- `binaryEmbed` symbol constructor. -/
def binaryEmbed (input tag : String) : Symbol := ⟨.Default, input, .binaryEmbedA tag⟩

/-- `binaryAttr` symbol constructor. -/
def binaryAttr (input tag attr : String) : Symbol := ⟨.Default, input, .binaryAttrA tag attr⟩

/-- `leftMatrix` symbol constructor: its parser is `matrixParser` applied to
the rendered (possibly invisible) left bracket. -/
def leftMatrix (input : String) (output : Option String) : Symbol :=
  ⟨.MatrixLeftBracket, input,
    .matrixA (match output with | some o => "<mo>" ++ o ++ "</mo>" | none => "")⟩

/-- `rightMatrix` symbol constructor. -/
def rightMatrix (input : String) (output : Option String) : Symbol :=
  ⟨.MatrixRightBracket, input, .brA output⟩

/-- `matrixCellSep` symbol constructor (renders nothing). -/
def matrixCellSep (input : String) : Symbol := ⟨.MatrixCellSep, input, .emptyA⟩

/-- `matrixRowSep` symbol constructor (renders nothing). -/
def matrixRowSep (input : String) : Symbol := ⟨.MatrixRowSep, input, .emptyA⟩

/-- Calligraphic (script) character table. -/
def calTable : CharTable := [uchar 0x1D49C, "ℬ", uchar 0x1D49E, uchar 0x1D49F, "ℰ",
  "ℱ", uchar 0x1D4A2, "ℋ", "ℐ", uchar 0x1D4A5, uchar 0x1D4A6,
  "ℒ", "ℳ", uchar 0x1D4A9, uchar 0x1D4AA, uchar 0x1D4AB,
  uchar 0x1D4AC, "ℛ", uchar 0x1D4AE, uchar 0x1D4AF, uchar 0x1D4B0,
  uchar 0x1D4B1, uchar 0x1D4B2, uchar 0x1D4B3, uchar 0x1D4B4,
  uchar 0x1D4B5, uchar 0x1D4B6, uchar 0x1D4B7, uchar 0x1D4B8,
  uchar 0x1D4B9, "ℯ", uchar 0x1D4BB, "ℊ", uchar 0x1D4BD,
  uchar 0x1D4BE, uchar 0x1D4BF, uchar 0x1D4C0, uchar 0x1D4C1,
  uchar 0x1D4C2, uchar 0x1D4C3, "ℴ", uchar 0x1D4C5, uchar 0x1D4C6,
  uchar 0x1D4C7, uchar 0x1D4C8, uchar 0x1D4C9, uchar 0x1D4CA,
  uchar 0x1D4CB, uchar 0x1D4CC, uchar 0x1D4CD, uchar 0x1D4CE,
  uchar 0x1D4CF]

/-- Fraktur character table. -/
def frkTable : CharTable := [uchar 0x1D504, uchar 0x1D505, "ℭ", uchar 0x1D507,
  uchar 0x1D508, uchar 0x1D509, uchar 0x1D50A, "ℌ", "ℑ",
  uchar 0x1D50D, uchar 0x1D50E, uchar 0x1D50F, uchar 0x1D510,
  uchar 0x1D511, uchar 0x1D512, uchar 0x1D513, uchar 0x1D514, "ℜ",
  uchar 0x1D516, uchar 0x1D517, uchar 0x1D518, uchar 0x1D519,
  uchar 0x1D51A, uchar 0x1D51B, uchar 0x1D51C, "ℨ", uchar 0x1D51E,
  uchar 0x1D51F, uchar 0x1D520, uchar 0x1D521, uchar 0x1D522,
  uchar 0x1D523, uchar 0x1D524, uchar 0x1D525, uchar 0x1D526,
  uchar 0x1D527, uchar 0x1D528, uchar 0x1D529, uchar 0x1D52A,
  uchar 0x1D52B, uchar 0x1D52C, uchar 0x1D52D, uchar 0x1D52E,
  uchar 0x1D52F, uchar 0x1D530, uchar 0x1D531, uchar 0x1D532,
  uchar 0x1D533, uchar 0x1D534, uchar 0x1D535, uchar 0x1D536,
  uchar 0x1D537]

/-- Blackboard (double-struck) character table. -/
def bbbTable : CharTable := [uchar 0x1D538, uchar 0x1D539, "ℂ", uchar 0x1D53B,
  uchar 0x1D53C, uchar 0x1D53D, uchar 0x1D53E, "ℍ", uchar 0x1D540,
  uchar 0x1D541, uchar 0x1D542, uchar 0x1D543, uchar 0x1D544, "ℕ",
  uchar 0x1D546, "ℙ", "ℚ", "ℝ", uchar 0x1D54A, uchar 0x1D54B,
  uchar 0x1D54C, uchar 0x1D54D, uchar 0x1D54E, uchar 0x1D54F,
  uchar 0x1D550, "ℤ", uchar 0x1D552, uchar 0x1D553, uchar 0x1D554,
  uchar 0x1D555, uchar 0x1D556, uchar 0x1D557, uchar 0x1D558,
  uchar 0x1D559, uchar 0x1D55A, uchar 0x1D55B, uchar 0x1D55C,
  uchar 0x1D55D, uchar 0x1D55E, uchar 0x1D55F, uchar 0x1D560,
  uchar 0x1D561, uchar 0x1D562, uchar 0x1D563, uchar 0x1D564,
  uchar 0x1D565, uchar 0x1D566, uchar 0x1D567, uchar 0x1D568,
  uchar 0x1D569, uchar 0x1D56A, uchar 0x1D56B]

/-- The apostrophe character, used in two symbol patterns. -/
def apos : Char := Char.ofNat 39

/-- The full symbol table, keyed by the first character of each symbol (an
association list standing for the source's string-keyed object literal).
The buckets and their internal order are copied entry for entry, including
the `__|` entry that the source files under the `-` key. -/
def symbolTable : List (Char × List Symbol) := [
  ('a', [
    unary "arcsin" "arcsin",
    unary "arccos" "arccos",
    unary "arctan" "arctan",
    ident "alpha" "α",
    oper "aleph" "ℵ",
    unarySurround "abs" "|" "|",
    textOper "and" "and",
    ident "a" "a"]),
  ('A', [
    unary "Arcsin" "Arcsin",
    unary "Arccos" "Arccos",
    unary "Arctan" "Arctan",
    unarySurround "Abs" "|" "|",
    oper "AA" "∀",
    ident "A" "A"]),
  ('b', [
    ident "beta" "β",
    unaryUnderOver "bar" "mover" "¯",
    unaryCharTable "bbb" bbbTable,
    unaryAttr "bb" "mstyle" "style=\"font-weight: bold\"",
    ident "b" "b"]),
  ('B', [
    ident "B" "B"]),
  ('c', [
    unaryAttr "cancel" "menclose" "notation=\"updiagonalstrike\"",
    binaryAttr "color" "mstyle" "mathcolor",
    binaryAttr "class" "mrow" "class",
    oper "cdots" "⋯",
    unarySurround "ceil" "⌈" "⌉",
    unary "cosh" "cosh",
    unary "csch" "csch",
    unary "cos" "cos",
    unary "cot" "cot",
    unary "csc" "csc",
    ident "chi" "χ",
    unaryCharTable "cc" calTable,
    ident "c" "c"]),
  ('C', [
    unary "Cosh" "Cosh",
    unary "Cos" "Cos",
    unary "Cot" "Cot",
    unary "Csc" "Csc",
    oper "CC" "ℂ",
    ident "C" "C"]),
  ('d', [
    oper "diamonds" "⋄",
    ident "delta" "δ",
    oper "ddots" "⋱",
    unaryUnderOver "ddot" "mover" "..",
    oper "darr" "↓",
    oper "del" "∂",
    unary "det" "det",
    unaryUnderOver "dot" "mover" ".",
    textOper "dim" "dim",
    ident "d" "d"]),
  ('D', [
    oper "Delta" "Δ",
    ident "D" "D"]),
  ('e', [
    ident "epsilon" "ε",
    ident "eta" "η",
    unary "exp" "exp",
    ident "e" "e"]),
  ('E', [
    oper "EE" "∃",
    ident "E" "E"]),
  ('f', [
    unarySurround "floor" "⌊" "⌋",
    oper "frown" "⌢",
    binaryEmbed "frac" "mfrac",
    unaryCharTable "fr" frkTable,
    ident "f" "f"]),
  ('F', [
    ident "F" "F"]),
  ('g', [
    ident "gamma" "γ",
    oper "grad" "∇",
    unary "gcd" "gcd",
    textOper "glb" "glb",
    ident "g" "g"]),
  ('G', [
    oper "Gamma" "Γ",
    ident "G" "G"]),
  ('h', [
    oper "harr" "↔",
    oper "hArr" "⇔",
    unaryUnderOver "hat" "mover" "^",
    ident "h" "h"]),
  ('H', [
    ident "H" "H"]),
  ('i', [
    ident "iota" "ι",
    oper "int" "∫",
    oper "in" "∈",
    textOper "if" "if",
    binaryAttr "id" "mrow" "id",
    ident "i" "i"]),
  ('I', [
    ident "I" "I"]),
  ('j', [
    ident "j" "j"]),
  ('J', [
    ident "J" "J"]),
  ('k', [
    ident "kappa" "κ",
    ident "k" "k"]),
  ('K', [
    ident "K" "K"]),
  ('l', [
    ident "lambda" "λ",
    oper "larr" "←",
    oper "lArr" "⇐",
    underOverOper "lim" "lim",
    unary "log" "log",
    unary "lcm" "lcm",
    textOper "lub" "lub",
    unary "ln" "ln",
    ident "l" "l"]),
  ('L', [
    oper "Lambda" "Λ",
    underOverOper "Lim" "Lim",
    unary "Log" "Log",
    unary "Ln" "Ln",
    ident "L" "L"]),
  ('m', [
    underOverOper "min" "min",
    underOverOper "max" "max",
    textOper "mod" "mod",
    ident "mu" "μ",
    ident "m" "m"]),
  ('M', [
    ident "M" "M"]),
  ('n', [
    unarySurround "norm" "∥" "∥",
    underOverOper "nnn" "⋂",
    oper "not" "¬",
    oper "nn" "∩",
    ident "nu" "ν",
    ident "n" "n"]),
  ('N', [
    oper "NN" "ℕ",
    ident "N" "N"]),
  ('o', [
    unaryUnderOver "overarc" "mover" "⏜",
    binaryEmbed "overset" "mover",
    unaryUnderOver "obrace" "mover" "⏞",
    ident "omega" "ω",
    oper "oint" "∮",
    textOper "or" "or",
    oper "o+" "⊕",
    oper "ox" "⊕",
    oper "o." "⊙",
    oper "oo" "∞",
    ident "o" "o"]),
  ('O', [
    oper "Omega" "Ω",
    oper "O/" "∅",
    ident "O" "O"]),
  ('p', [
    underOverOper "prod" "∏",
    ident "prop" "∝",
    ident "phi" "ϕ",
    ident "psi" "ψ",
    ident "pi" "π",
    ident "p" "p"]),
  ('P', [
    oper "Phi" "Φ",
    ident "Psi" "Ψ",
    oper "Pi" "Π",
    ident "P" "P"]),
  ('q', [
    oper "qquad" "    ",
    oper "quad" "  ",
    ident "q" "q"]),
  ('Q', [
    oper "QQ" "ℚ",
    ident "Q" "Q"]),
  ('r', [
    oper "rarr" "→",
    oper "rArr" "⇒",
    binaryEmbed "root" "mroot",
    ident "rho" "ρ",
    ident "r" "r"]),
  ('R', [
    oper "RR" "ℝ",
    ident "R" "R"]),
  ('s', [
    binaryEmbed "stackrel" "mover",
    oper "setminus" "\\",
    oper "square" "□",
    ident "sigma" "σ",
    underOverOper "sube" "⊆",
    underOverOper "supe" "⊇",
    unaryEmbed "sqrt" "msqrt",
    unary "sinh" "sinh",
    unary "sech" "sech",
    underOverOper "sum" "∑",
    underOverOper "sub" "⊂",
    underOverOper "sup" "⊃",
    unary "sin" "sin",
    unary "sec" "sec",
    unaryAttr "sf" "mstyle" "style=\"font-family: sans-serif\"",
    ident "s" "s"]),
  ('S', [
    oper "Sigma" "Σ",
    unary "Sinh" "Sinh",
    unary "Sin" "Sin",
    unary "Sec" "Sec",
    ident "S" "S"]),
  ('t', [
    ident "theta" "θ",
    unaryUnderOver "tilde" "mover" "~",
    unaryEmbed "text" "mtext",
    unary "tanh" "tanh",
    unary "tan" "tan",
    ident "tau" "τ",
    unaryAttr "tt" "mstyle" "style=\"font-family: monospace\"",
    ident "t" "t"]),
  ('T', [
    oper "Theta" "Θ",
    unary "Tanh" "Tanh",
    unary "Tan" "Tan",
    oper "TT" "⊤",
    ident "T" "T"]),
  ('u', [
    binaryEmbed "underset" "munder",
    ident "upsilon" "υ",
    unaryUnderOver "ubrace" "munder" "⏟",
    oper "uarr" "↑",
    underOverOper "uuu" "⋃",
    oper "uu" "∪",
    unaryUnderOver "ul" "munder" "̲",
    ident "u" "u"]),
  ('U', [
    ident "U" "U"]),
  ('v', [
    ident "varepsilon" "ɛ",
    ident "vartheta" "ϑ",
    ident "varphi" "φ",
    oper "vdots" "⋮",
    unaryUnderOver "vec" "mover" "→",
    underOverOper "vvv" "⋁",
    oper "vv" "∨",
    ident "v" "v"]),
  ('V', [
    ident "V" "V"]),
  ('w', [
    ident "w" "w"]),
  ('W', [
    ident "W" "W"]),
  ('x', [
    ident "xi" "ξ",
    oper "xx" "×",
    ident "x" "x"]),
  ('X', [
    ident "Xi" "Ξ",
    ident "X" "X"]),
  ('y', [
    ident "y" "y"]),
  ('Y', [
    ident "Y" "Y"]),
  ('z', [
    ident "zeta" "ζ",
    ident "z" "z"]),
  ('Z', [
    oper "ZZ" "ℤ",
    ident "Z" "Z"]),
  ('-', [
    oper "__|" "⌋",
    oper "-<=" "⪯",
    oper "->>" "↠",
    oper "->" "→",
    oper "-<" "≺",
    oper "-:" "÷",
    oper "-=" "≡",
    oper "-+" "∓",
    oper "-" "−"]),
  ('*', [
    oper "***" "⋆",
    oper "**" "∗",
    oper "*" "⋅"]),
  ('+', [
    oper "+-" "±",
    oper "+" "+"]),
  ('/', [
    oper "/_\\" "△",
    oper "/_" "∠",
    oper "//" "/",
    oper "/" ""]),
  ('\\', [
    oper "\\\\" "\\",
    oper "\\" " "]),
  ('|', [
    oper "|><|" "⋈",
    oper "|><" "⋉",
    oper "|->" "↦",
    oper "|--" "⊢",
    oper "|==" "⊨",
    oper "|__" "⌊",
    leftMatrix "||:" (some "|"),
    leftMatrix "|::" none,
    oper "|~" "⌈",
    leftBracket "|:" (some "|"),
    rightMatrix "|)" (some ")"),
    rightMatrix "|]" (some "]"),
    rightMatrix (String.mk ['|', '\x7d']) (some "\x7d"),
    oper "|" "|"]),
  ('<', [
    oper "<=>" "⇔",
    oper "<=" "≤",
    oper "<<" "≪",
    oper "<" "<"]),
  ('>', [
    oper ">->>" "⤖",
    oper ">->" "↣",
    oper "><|" "⋊",
    oper ">-=" "⪰",
    oper ">=" "≥",
    oper ">-" "≻",
    oper ">>" "≫",
    oper ">" ">"]),
  ('=', [
    oper "=>" "⇒",
    oper "=" "="]),
  ('@', [
    oper "@" "∘"]),
  ('^', [
    underOverOper "^^^" "⋀",
    oper "^^" "∧",
    oper "^" ""]),
  ('~', [
    oper "~~" "≈",
    oper "~=" "≅",
    oper "~|" "⌉",
    oper "~" "∼"]),
  ('!', [
    oper "!in" "∉",
    oper "!=" "≠",
    oper "!" "!"]),
  (':', [
    rightMatrix ":||" (some "|"),
    rightMatrix "::|" none,
    oper ":=" ":=",
    rightBracket ":)" (some "〉"),
    rightBracket ":|" (some "|"),
    rightBracket (String.mk [':', '\x7d']) (some "\x7d"),
    oper ":." "∴",
    oper (String.mk [':', apos]) "∵",
    oper ":" ":"]),
  (';', [
    matrixRowSep ";;",
    matrixCellSep ";"]),
  ('.', [
    oper "..." "..."]),
  (',', [
    oper "," ","]),
  ('_', [
    oper "_|_" "⊥",
    oper "_" ""]),
  (apos, [
    oper (String.mk [apos]) "′"]),
  ('(', [
    leftMatrix "(|" (some "("),
    leftBracket "(:" (some "〈"),
    leftBracket "(" (some "(")]),
  (')', [
    rightBracket ")" (some ")")]),
  ('[', [
    leftMatrix "[|" (some "["),
    leftBracket "[" (some "[")]),
  (']', [
    rightBracket "]" (some "]")]),
  ('\x7b', [
    leftMatrix (String.mk ['\x7b', '|']) (some "\x7b"),
    leftBracket (String.mk ['\x7b', ':']) (some "\x7b"),
    leftBracket (String.mk ['\x7b']) none]),
  ('\x7d', [
    rightBracket (String.mk ['\x7d']) none])]

/-- Bucket lookup in the symbol table (`symbols[curr]`, with a missing key
behaving like an empty bucket). -/
def symsFor (c : Char) : List Symbol :=
  (Option.map Prod.snd (symbolTable.find? (fun kv => kv.1 = c))).getD []

/-- Does `pat` match `input` at position `p` (`input.slice(pos, pos+len) == sym.input`)? -/
def matchesAt (input : List Char) (p : Nat) (pat : String) : Bool :=
  (input.drop p).take pat.length == pat.toList

/-- `peekSymbol`: next symbol, the position just past it, and the scanner
after the whitespace-skipping side effect. -/
def Scanner.peekSymbol (s : Scanner) : Symbol × Int × Scanner :=
  let (s1, pos) := s.skipWhitespace
  if pos < 0 then (AsciiMath.eof, pos, s1)
  else
    let p := pos.toNat
    let curr := s1.input.getD p ' '
    if curr = '"' then
      let q := p + 1 + ((s1.input.drop (p + 1)).takeWhile (fun c => c ≠ '"')).length
      (text (String.mk ((s1.input.drop (p + 1)).take (q - (p + 1)))), (q : Int) + 1, s1)
    else if curr.isDigit then
      let q := p + ((s1.input.drop p).takeWhile digitOrDot).length
      (number (String.mk ((s1.input.drop p).take (q - p))), (q : Int), s1)
    else
      match (symsFor curr).find? (fun sym => matchesAt s1.input p sym.input) with
      | some sym => (sym, (p : Int) + sym.input.length, s1)
      | none => (error (String.singleton curr), (p : Int) + 1, s1)

/-- `nextSymbol`: get the next symbol and commit the advance (only for a
non-negative new position). -/
def Scanner.nextSymbol (s : Scanner) : Symbol × Scanner :=
  let (sym, pos, s1) := s.peekSymbol
  (sym, if 0 ≤ pos then { s1 with pos := pos } else s1)

/-- Terminator kinds for `exprParser` (`terminators` in the source). -/
def terminators : List SymbolKind := [.Eof, .RightBracket, .MatrixCellSep,
  .MatrixRowSep, .MatrixRightBracket]

/-- Rendering of a possibly invisible bracket symbol (the closure built by
`leftBracket`, `rightBracket` and `rightMatrix`). -/
def brText : Option String → String
  | some o => "<mo>" ++ o ++ "</mo>"
  | none => ""

/-- The seven mutually recursive procedures of the grammar engine, packaged
so they can be defined by structural recursion on fuel.  `exprParser`,
`matrixParser` and `matrixRowParser` carry the local accumulator (`res`, and
for `matrixParser` also the rendered left bracket) of their source `while`
loops as arguments; the corresponding source function is obtained by passing
`""` for the accumulator.  `runParser` is the dispatcher for the
defunctionalized per-symbol rendering closures; `parseSExpr` additionally
returns the root symbol, as in the source. -/
structure ParseFuns where
  parseSExpr : Scanner → Option (String × Symbol × Scanner)
  sexprParser : Scanner → Option (String × Scanner)
  iexprParser : Scanner → Option (String × Scanner)
  exprParser : String → Scanner → Option (String × Scanner)
  matrixParser : String → String → Scanner → Option (String × Scanner)
  matrixRowParser : String → Scanner → Option (String × Scanner)
  runParser : SymAction → Scanner → Option (String × Scanner)

/-- All procedures fail (no fuel left). -/
def noFuel : ParseFuns :=
  ⟨fun _ => none, fun _ => none, fun _ => none, fun _ _ => none,
   fun _ _ _ => none, fun _ _ => none, fun _ _ => none⟩

/-- One layer of the mutual recursion: each field is the body of the
corresponding source function, with every (mutually) recursive call going
through the previous layer `p`. -/
def stepFuns (p : ParseFuns) : ParseFuns where
  parseSExpr := fun s =>
    let (sym, s1) := s.nextSymbol
    if sym.kind = .LeftBracket then
      match p.runParser sym.action s1 with
      | none => none
      | some (lbrac, s2) =>
        let (sym2, _, s3) := s2.peekSymbol
        let inner := if sym2.kind = .RightBracket then some ("", s3)
          else p.exprParser "" s3
        match inner with
        | none => none
        | some (exp, s4) =>
          let (sym2b, s5) := s4.nextSymbol
          let rsym := if sym2b.kind = .RightBracket then sym2b
            else error "Missing closing paren"
          match p.runParser rsym.action s5 with
          | none => none
          | some (rbrac, s6) =>
            some ("<mrow>" ++ lbrac ++ exp ++ rbrac ++ "</mrow>", sym, s6)
    else
      match p.runParser sym.action s1 with
      | none => none
      | some (r, s2) => some (r, sym, s2)
  sexprParser := fun s =>
    match p.parseSExpr s with
    | none => none
    | some (r, _, s1) => some (r, s1)
  iexprParser := fun s =>
    match p.parseSExpr s with
    | none => none
    | some (res, sym, s1) =>
      let (next, pos, s2) := s1.peekSymbol
      let subStep : Option (String × Symbol × Int × Scanner) :=
        if next.input = "_" then
          match p.sexprParser { s2 with pos := pos } with
          | none => none
          | some (sb, s3) =>
            let (n2, p2, s4) := s3.peekSymbol
            some (sb, n2, p2, s4)
        else some ("", next, pos, s2)
      match subStep with
      | none => none
      | some (sub, next1, pos1, s5) =>
        let supStep : Option (String × Scanner) :=
          if next1.input = "^" then
            match p.sexprParser { s5 with pos := pos1 } with
            | none => none
            | some (sp, s6) => some (sp, s6)
          else some ("", s5)
        match supStep with
        | none => none
        | some (sup, s7) =>
          let out :=
            if sym.kind = .UnderOver then
              if sub ≠ "" ∧ sup ≠ "" then
                "<munderover>" ++ res ++ sub ++ sup ++ "</munderover>"
              else if sub ≠ "" then "<munder>" ++ res ++ sub ++ "</munder>"
              else if sup ≠ "" then "<mover>" ++ res ++ sup ++ "</mover>"
              else res
            else
              if sub ≠ "" ∧ sup ≠ "" then
                "<msubsup>" ++ res ++ sub ++ sup ++ "</msubsup>"
              else if sub ≠ "" then "<msub>" ++ res ++ sub ++ "</msub>"
              else if sup ≠ "" then "<msup>" ++ res ++ sup ++ "</msup>"
              else res
          some (out, s7)
  exprParser := fun res s =>
    match p.iexprParser s with
    | none => none
    | some (exp, s1) =>
      let (next, pos, s2) := s1.peekSymbol
      if terminators.contains next.kind then some (res ++ exp, s2)
      else if next.input = "/" then
        match p.iexprParser { s2 with pos := pos } with
        | none => none
        | some (quot, s3) =>
          let exp2 := "$<mfrac>" ++ exp ++ quot ++ "</mfrac>"
          let (next2, _, s4) := s3.peekSymbol
          if terminators.contains next2.kind then some (res ++ exp2, s4)
          else p.exprParser (res ++ exp2) s4
      else p.exprParser (res ++ exp) s2
  matrixParser := fun lb res s =>
    let (sym, pos, s1) := s.peekSymbol
    if sym.kind = .Eof ∨ sym.kind = .MatrixRightBracket then
      let s2 := { s1 with pos := pos }
      match p.runParser sym.action s2 with
      | none => none
      | some (rb, s3) =>
        some (if lb ≠ "" ∨ rb ≠ "" then
            "<mrow>" ++ lb ++ "<mtable>" ++ res ++ "</mtable>" ++ rb ++ "</mrow>"
          else "<mtable>" ++ res ++ "</mtable>", s3)
    else
      match p.matrixRowParser "" s1 with
      | none => none
      | some (row, s2) => p.matrixParser lb (res ++ "<mtr>" ++ row ++ "</mtr>") s2
  matrixRowParser := fun res s =>
    let (sym, pos, s1) := s.peekSymbol
    if sym.kind = .Eof ∨ sym.kind = .MatrixRowSep then
      some (res, { s1 with pos := pos })
    else if sym.kind = .MatrixRightBracket then some (res, s1)
    else
      match p.exprParser "" s1 with
      | none => none
      | some (cell, s2) => p.matrixRowParser (res ++ "<mtd>" ++ cell ++ "</mtd>") s2
  runParser := fun act s =>
    match act with
    | .textA content => some ("<mtext>" ++ convertText content s.charTable ++ "</mtext>", s)
    | .numberA str => some ("<mn>" ++ str ++ "</mn>", s)
    | .errorA msg => some ("<merror><mtext>" ++ msg ++ "</mtext></merror>", s)
    | .emptyA => some ("", s)
    | .identA output => some ("<mi>" ++ convertText output s.charTable ++ "</mi>", s)
    | .operA output => some ("<mo>" ++ output ++ "</mo>", s)
    | .textOperA output =>
      some ("<mrow><mspace width=\"1ex\"/><mtext>" ++ output ++
        "</mtext><mspace width=\"1ex\"/></mrow>", s)
    | .brA output => some (brText output, s)
    | .unaryA operStr =>
      match p.sexprParser s with
      | none => none
      | some (arg, s1) => some ("<mrow>" ++ operStr ++ arg ++ "</mrow>", s1)
    | .unaryEmbedA tag =>
      match p.sexprParser s with
      | none => none
      | some (arg, s1) => some ("<" ++ tag ++ ">" ++ arg ++ "</" ++ tag ++ ">", s1)
    | .unaryEmbedWithA tag arg2 =>
      match p.sexprParser s with
      | none => none
      | some (arg1, s1) =>
        some ("<" ++ tag ++ ">" ++ arg1 ++ arg2 ++ "</" ++ tag ++ ">", s1)
    | .unarySurroundA left right =>
      match p.sexprParser s with
      | none => none
      | some (arg, s1) => some ("<mrow>" ++ left ++ arg ++ right ++ "</mrow>", s1)
    | .unaryAttrA tag attr =>
      match p.sexprParser s with
      | none => none
      | some (arg, s1) =>
        some ("<" ++ tag ++ " " ++ attr ++ "\">" ++ arg ++ "</" ++ tag ++ ">", s1)
    | .unaryCharTableA table =>
      match p.sexprParser (s.pushCharTable table) with
      | none => none
      | some (r, s1) => some (r, s1.popCharTable)
    | .binaryEmbedA tag =>
      match p.sexprParser s with
      | none => none
      | some (arg1, s1) =>
        match p.sexprParser s1 with
        | none => none
        | some (arg2, s2) =>
          some ("<" ++ tag ++ ">" ++ arg1 ++ arg2 ++ "</" ++ tag ++ ">", s2)
    | .binaryAttrA tag attr =>
      let (sym1, s1) := s.nextSymbol
      match p.sexprParser s1 with
      | none => none
      | some (arg2, s2) =>
        some ("<" ++ tag ++ " " ++ attr ++ "=\"" ++ sym1.input ++ "\">" ++ arg2 ++
          "</" ++ tag ++ ">", s2)
    | .matrixA lb => p.matrixParser lb "" s

/-- The grammar engine at a given amount of fuel. -/
def parseFuns : Nat → ParseFuns
  | 0 => noFuel
  | n + 1 => stepFuns (parseFuns n)

/-- Fuel that (provably, see the termination theorem below) always suffices
for an input of the given length. -/
def enoughFuel (len : Nat) : Nat := 7 * len + 4

/-- `asciiToMathML`: the exported entry point.  `none` would indicate fuel
exhaustion; the termination theorem shows it never occurs. -/
def asciiToMathML (input : String) (inline : Bool) : Option String :=
  match (parseFuns (enoughFuel input.toList.length)).exprParser ""
      ⟨input.toList, 0, []⟩ with
  | none => none
  | some (r, _) =>
    some ("<math display=\"" ++ (if inline then "inline" else "block") ++
      "\"><mstyle displaystyle=\"true\">" ++ r ++ "</mstyle></math>")

/-- Remaining input measured from the cursor (0 when the cursor is negative
or past the end). -/
def rem (s : Scanner) : Nat := if s.pos < 0 then 0 else s.input.length - s.pos.toNat

/-- The scanner is exhausted: skipping whitespace runs into the end of input
(`skipWhitespace` reports a negative position, so the next symbol is `eof`). -/
def stuck (s : Scanner) : Prop := (s.skipWhitespace).2 < 0

instance (s : Scanner) : Decidable (stuck s) := by unfold stuck; infer_instance

/-- Is the action a plain bracket rendering? -/
def SymAction.isBr : SymAction → Bool
  | .brA _ => true
  | _ => false

/-- All symbols of the symbol table, in declaration order. -/
def allTableSymbols : List Symbol := symbolTable.flatMap Prod.snd

/-- Scanning the pattern of a table entry in isolation yields a symbol with
that same pattern. -/
def roundTrips (sym : Symbol) : Bool :=
  (Scanner.peekSymbol ⟨sym.input.toList, 0, []⟩).1.input == sym.input

/-- Cursor discipline between two successive cursor values: it does not
decrease, except for a move to the end-of-input sentinel `-1`; and a negative
cursor never changes. -/
def Qrel (a b : Int) : Prop := (a ≤ b ∨ b = -1) ∧ (a < 0 → b = a)

/-- Relation between the scanner state at entry and at exit of a parsing
procedure: the input and table stack are unchanged, the cursor obeys the
monotone-or-sentinel discipline, and an exhausted scanner stays exhausted. -/
def Pre (s s' : Scanner) : Prop :=
  s'.input = s.input ∧ s'.charTables = s.charTables ∧
  Qrel s.pos s'.pos ∧ (stuck s → stuck s')

/-- C1: the spec promises that `"1/2"` translates to a single `<mfrac>`
fragment (numerator `1`, denominator `2`) with nothing else in the top-level
container, but the template literal in `exprParser` contains a stray `$`
before `<mfrac>`, so the body is `$<mfrac><mn>1</mn><mn>2</mn></mfrac>`:
an extra text character precedes the fraction element (for both values of
the display flag). -/
theorem c1_half_renders_with_stray_dollar :
    asciiToMathML "1/2" false =
      some ("<math display=\"block\"><mstyle displaystyle=\"true\">" ++
        "$<mfrac><mn>1</mn><mn>2</mn></mfrac></mstyle></math>") ∧
    asciiToMathML "1/2" true =
      some ("<math display=\"inline\"><mstyle displaystyle=\"true\">" ++
        "$<mfrac><mn>1</mn><mn>2</mn></mfrac></mstyle></math>") := by
  constructor <;> rfl

/-- C10: in `"a/b/c"` the second `/` is consumed as an ordinary symbol and
renders as an empty `<mo></mo>`; the full output contains exactly one
fraction (numerator `a`, denominator `b`) followed by the empty operator and
the identifier `c` (the `$` before `<mfrac>` is the stray text of C1). -/
theorem c10_second_slash_empty_operator :
    asciiToMathML "a/b/c" false =
      some ("<math display=\"block\"><mstyle displaystyle=\"true\">" ++
        "$<mfrac><mi>a</mi><mi>b</mi></mfrac><mo></mo><mi>c</mi></mstyle></math>") ∧
    (∀ n s, (parseFuns (n + 1)).runParser (oper "/" "").action s = some ("<mo></mo>", s)) := by
  exact ⟨rfl, fun n s => rfl⟩

/-- C2: every symbol-table entry except `"__|"` scans back to itself, but the
`"__|"` entry is filed in the `'-'` bucket (its pattern starts with `'_'`,
contradicting the table's documented keying invariant), so scanning `"__|"`
returns the `"_"` symbol instead of the `"__|"` entry. -/
theorem c2_roundtrip_except_misfiled :
    (allTableSymbols.filter (fun sym => sym.input ≠ "__|")).all roundTrips = true ∧
    (symsFor '-').map Symbol.input =
      ["__|", "-<=", "->>", "->", "-<", "-:", "-=", "-+", "-"] ∧
    (Scanner.peekSymbol ⟨"__|".toList, 0, []⟩).1.input = "_" := by
  refine ⟨?_, rfl, rfl⟩
  set_option maxRecDepth 40000 in decide

/-- C3 counterexample: parsing a matrix row that runs into the end of input
(here the tail of `"(|a"`, starting inside the matrix at position 2) stores
the end-of-input sentinel `-1` into the cursor, which is smaller than the
cursor's previous value — refuting the claim that every assignment to the
position is ≥ its previous value. -/
theorem c3_matrix_row_pos_decreases :
    (parseFuns 30).matrixRowParser "" ⟨"(|a".toList, 2, []⟩ =
      some ("<mtd><mi>a</mi></mtd>", ⟨"(|a".toList, -1, []⟩) ∧
    (-1 : Int) < 2 := by
  exact ⟨rfl, by decide⟩

/-- C6 counterexample: scanning `"1.2.3"` yields a single numeric-literal
symbol whose text is the whole string `"1.2.3"`, which contains two decimal
separators — refuting the claim that the scanned text contains at most a
single `'.'`. -/
theorem c6_number_two_dots :
    Scanner.peekSymbol ⟨"1.2.3".toList, 0, []⟩ =
      (number "1.2.3", 5, ⟨"1.2.3".toList, 0, []⟩) ∧
    "1.2.3".toList.count '.' = 2 := by
  exact ⟨rfl, by decide⟩

/-- C4: when simple-expression parsing has consumed a left bracket and, after
the enclosed expression, the next symbol is the end-of-input symbol instead
of a right bracket, parsing still returns normally: a "Missing closing
paren" error fragment is rendered in place of the right bracket and the
`<mrow>` wrapper is still closed around the already-parsed content. -/
theorem c4_missing_rbracket_recovery (n : Nat) (hn : 1 ≤ n)
    (s s1 s2 s3 s4 s5 : Scanner) (sym sym2 symE : Symbol) (p2 : Int)
    (lbrac exp : String)
    (h1 : s.nextSymbol = (sym, s1))
    (h2 : sym.kind = .LeftBracket)
    (h3 : (parseFuns n).runParser sym.action s1 = some (lbrac, s2))
    (h4 : s2.peekSymbol = (sym2, p2, s3))
    (h5 : sym2.kind ≠ .RightBracket)
    (h6 : (parseFuns n).exprParser "" s3 = some (exp, s4))
    (h7 : s4.nextSymbol = (symE, s5))
    (h8 : symE.kind = .Eof) :
    (parseFuns (n + 1)).parseSExpr s =
      some ("<mrow>" ++ lbrac ++ exp ++
        "<merror><mtext>Missing closing paren</mtext></merror>" ++ "</mrow>", sym, s5) := by
  obtain ⟨m, rfl⟩ : ∃ m, n = m + 1 := ⟨n - 1, by omega⟩
  have h8' : symE.kind ≠ .RightBracket := by rw [h8]; decide
  show (stepFuns (parseFuns (m + 1))).parseSExpr s = _
  unfold stepFuns
  have hr : (parseFuns (m + 1)).runParser (error "Missing closing paren").action s5 =
      some ("<merror><mtext>Missing closing paren</mtext></merror>", s5) := rfl
  simp only [h1, h2, if_pos rfl, h3, h4, if_neg h5, h6, h7, if_neg h8', if_true, hr]

/-- C4 witness: the unterminated input `"(a"`. -/
theorem c4_witness :
    (parseFuns 6).parseSExpr ⟨"(a".toList, 0, []⟩ =
      some ("<mrow><mo>(</mo><mi>a</mi><merror><mtext>Missing closing paren</mtext></merror></mrow>",
        leftBracket "(" (some "("), ⟨"(a".toList, 2, []⟩) ∧
    asciiToMathML "(a" false =
      some "<math display=\"block\"><mstyle displaystyle=\"true\"><mrow><mo>(</mo><mi>a</mi><merror><mtext>Missing closing paren</mtext></merror></mrow></mstyle></math>" := by
  constructor
  · have := c4_missing_rbracket_recovery 5 (by decide)
      ⟨"(a".toList, 0, []⟩ ⟨"(a".toList, 1, []⟩ ⟨"(a".toList, 1, []⟩
      ⟨"(a".toList, 1, []⟩ ⟨"(a".toList, 2, []⟩ ⟨"(a".toList, 2, []⟩
      (leftBracket "(" (some "(")) (ident "a" "a") eof 2
      "<mo>(</mo>" "<mi>a</mi>" rfl rfl rfl rfl (by decide) rfl rfl rfl
    simpa using this
  · rfl


/-- C5: when the cursor stands on a non-whitespace, non-quote, non-digit
character that no symbol-table candidate matches, the scanner consumes
exactly one character and returns an error symbol (empty pattern) whose
rendering is an inline `<merror>` fragment naming the character; the error
symbol's kind is `Default`, so parsing continues past it. -/
theorem c5_unmatched_char_error (s : Scanner) (c : Char) (rest : List Char)
    (hpos : 0 ≤ s.pos)
    (hdrop : s.input.drop s.pos.toNat = c :: rest)
    (hws : jsWs c = false)
    (hq : c ≠ '"')
    (hd : c.isDigit = false)
    (hnm : (symsFor c).all (fun sym => !(matchesAt s.input s.pos.toNat sym.input)) = true) :
    s.peekSymbol = (error (String.singleton c), s.pos + 1, s) ∧
    s.nextSymbol = (error (String.singleton c), { s with pos := s.pos + 1 }) ∧
    (∀ n, (parseFuns (n + 1)).runParser (error (String.singleton c)).action s =
      some ("<merror><mtext>" ++ String.singleton c ++ "</mtext></merror>", s)) := by
  have hlt : s.pos.toNat < s.input.length := by
    by_contra h
    rw [not_lt] at h
    rw [List.drop_eq_nil_of_le h] at hdrop
    exact List.noConfusion hdrop
  have hposlt : s.pos < (s.input.length : Int) := by omega
  have hskip : s.skipWhitespace = (s, s.pos) := by
    unfold Scanner.skipWhitespace
    rw [if_pos hpos, hdrop]
    simp [List.takeWhile_cons, hws, hposlt]
  have hget : s.input.getD s.pos.toNat ' ' = c := by
    have h1 : (s.input.drop s.pos.toNat).head? = some c := by rw [hdrop]; rfl
    rw [List.head?_drop] at h1
    simp [List.getD, h1]
  have hfind : (symsFor c).find? (fun sym => matchesAt s.input s.pos.toNat sym.input)
      = none := by
    rw [List.find?_eq_none]
    intro sym hmem
    have := List.all_eq_true.mp hnm sym hmem
    simpa using this
  have hcast : (s.pos.toNat : Int) = s.pos := Int.toNat_of_nonneg hpos
  have hpeek : s.peekSymbol = (error (String.singleton c), s.pos + 1, s) := by
    unfold Scanner.peekSymbol
    rw [hskip]
    simp only [not_lt.mpr hpos, if_neg (by omega : ¬ s.pos < 0), hget, hq, hd, hfind,
      if_neg hq, hcast]
    simp [hq, hd, hfind, hcast]
  refine ⟨hpeek, ?_, fun n => rfl⟩
  unfold Scanner.nextSymbol
  rw [hpeek]
  simp only []
  rw [if_pos (by omega : (0:Int) ≤ s.pos + 1)]


/-- `skipWhitespace` changes neither the input nor the table stack. -/
theorem skip_parts (s : Scanner) :
    (s.skipWhitespace).1.input = s.input ∧
    (s.skipWhitespace).1.charTables = s.charTables := by
  by_cases h : (0 : Int) ≤ s.pos <;> simp [Scanner.skipWhitespace, h]

/-- The value returned by `skipWhitespace` in terms of the updated state. -/
theorem skip_snd (s : Scanner) :
    (s.skipWhitespace).2 =
      (if (s.skipWhitespace).1.pos < (((s.skipWhitespace).1.input.length : Int))
        then (s.skipWhitespace).1.pos else -1) := rfl

/-- A non-negative `skipWhitespace` return value is the updated in-range
cursor. -/
theorem skip_ret_spec (s : Scanner) (h : 0 ≤ (s.skipWhitespace).2) :
    (s.skipWhitespace).2 = (s.skipWhitespace).1.pos ∧
    (s.skipWhitespace).1.pos < (((s.skipWhitespace).1.input.length : Int)) := by
  by_cases hlt : (s.skipWhitespace).1.pos < (((s.skipWhitespace).1.input.length : Int))
  · rw [skip_snd, if_pos hlt]
    exact ⟨rfl, hlt⟩
  · rw [skip_snd, if_neg hlt] at h
    omega

/-- `skipWhitespace` never moves a non-negative cursor backwards. -/
theorem skip_pos_ge (s : Scanner) (h : 0 ≤ s.pos) : s.pos ≤ (s.skipWhitespace).1.pos := by
  simp only [Scanner.skipWhitespace, if_pos h]
  omega

/-- `skipWhitespace` is inert on a negative cursor. -/
theorem skip_neg (s : Scanner) (h : s.pos < 0) : s.skipWhitespace = (s, s.pos) := by
  have hnot : ¬ (0 : Int) ≤ s.pos := by omega
  have hlen : s.pos < ((s.input.length : Int)) :=
    lt_of_lt_of_le h (Int.ofNat_nonneg _)
  unfold Scanner.skipWhitespace
  rw [if_neg hnot]
  simp [hlen]

/-- Dropping the `takeWhile` prefix leaves the `dropWhile` suffix. -/
theorem drop_takeWhile_length (p : Char → Bool) (l : List Char) :
    l.drop (l.takeWhile p).length = l.dropWhile p := by
  nth_rewrite 2 [← @List.takeWhile_append_dropWhile _ p l]
  exact List.drop_left _ _

/-- Taking the length of the `takeWhile` prefix yields that prefix. -/
theorem take_takeWhile_length (p : Char → Bool) (l : List Char) :
    l.take (l.takeWhile p).length = l.takeWhile p :=
  (List.prefix_iff_eq_take.mp (List.takeWhile_prefix p)).symm

/-- C6 (amended): whenever the next non-whitespace character is a digit,
the scanner returns a numeric-literal symbol whose text is the maximal run
of characters that are digits or dots (any number of dots) from that
position, and the committed cursor advances past exactly that run; the
conjuncts state that every character of the run is a digit-or-dot and that
the character following the run (if any) is not. -/
theorem c6_number_scan_maximal_run (s s1 : Scanner) (ret : Int) (c : Char)
    (rest : List Char)
    (hskip : s.skipWhitespace = (s1, ret))
    (hret : 0 ≤ ret)
    (hdrop : s1.input.drop ret.toNat = c :: rest)
    (hc : c.isDigit = true) :
    s.peekSymbol =
      (number (String.mk ((s1.input.drop ret.toNat).takeWhile digitOrDot)),
        ret + ((s1.input.drop ret.toNat).takeWhile digitOrDot).length, s1) ∧
    s.nextSymbol =
      (number (String.mk ((s1.input.drop ret.toNat).takeWhile digitOrDot)),
        { s1 with pos := ret + ((s1.input.drop ret.toNat).takeWhile digitOrDot).length }) ∧
    ((s1.input.drop ret.toNat).takeWhile digitOrDot).all digitOrDot = true ∧
    (∀ c2 ∈ (s1.input.drop
        (ret.toNat + ((s1.input.drop ret.toNat).takeWhile digitOrDot).length)).head?,
      digitOrDot c2 = false) := by
  have hq : c ≠ '"' := by
    intro h
    rw [h] at hc
    exact Bool.noConfusion hc
  have hget : s1.input.getD ret.toNat ' ' = c := by
    have h1 : (s1.input.drop ret.toNat).head? = some c := by rw [hdrop]; rfl
    rw [List.head?_drop] at h1
    simp [List.getD, h1]
  have hcast : ((ret.toNat : Int)) = ret := Int.toNat_of_nonneg hret
  have hrun : (s1.input.drop ret.toNat).take
      (((s1.input.drop ret.toNat).takeWhile digitOrDot).length) =
      (s1.input.drop ret.toNat).takeWhile digitOrDot := take_takeWhile_length _ _
  have hpeek : s.peekSymbol =
      (number (String.mk ((s1.input.drop ret.toNat).takeWhile digitOrDot)),
        ret + ((s1.input.drop ret.toNat).takeWhile digitOrDot).length, s1) := by
    unfold Scanner.peekSymbol
    rw [hskip]
    simp only [if_neg (by omega : ¬ ret < 0), hget, if_neg hq, hc, if_pos rfl,
      Nat.add_sub_cancel_left, hrun, if_true]
    simp only [Prod.mk.injEq]
    refine ⟨trivial, ?_, trivial⟩
    push_cast [hcast]
    ring
  refine ⟨hpeek, ?_, ?_, ?_⟩
  · unfold Scanner.nextSymbol
    rw [hpeek]
    have hl : (0:Int) ≤ ret + ((s1.input.drop ret.toNat).takeWhile digitOrDot).length := by
      omega
    simp [hl]
  · rw [List.all_eq_true]
    intro c2 hc2
    exact List.mem_takeWhile_imp hc2
  · intro c2 hc2
    rw [← List.drop_drop, drop_takeWhile_length] at hc2
    have h := List.head?_dropWhile_not digitOrDot (s1.input.drop ret.toNat)
    rw [Option.mem_def] at hc2
    rw [hc2] at h
    exact h


/-- C5 witness: the unmapped character `#`, whose whole-input translation
still succeeds with an inline diagnostic. -/
theorem c5_unmatched_char_witness :
    Scanner.peekSymbol ⟨"#".toList, 0, []⟩ = (error "#", 1, ⟨"#".toList, 0, []⟩) ∧
    asciiToMathML "#" false =
      some "<math display=\"block\"><mstyle displaystyle=\"true\"><merror><mtext>#</mtext></merror></mstyle></math>" := by
  refine ⟨?_, rfl⟩
  have h := (c5_unmatched_char_error ⟨"#".toList, 0, []⟩ '#' [] (by decide) (by decide)
    (by decide) (by decide) (by decide) (by decide)).1
  exact h.trans (by decide)

/-- C6 witness: `"3.14x59"` scans to the number `3.14`, stopping at `x`. -/
theorem c6_number_scan_witness :
    Scanner.peekSymbol ⟨"3.14x59".toList, 0, []⟩ =
      (number "3.14", 4, ⟨"3.14x59".toList, 0, []⟩) ∧
    "3.14x59".toList.getD 4 ' ' = 'x' ∧ digitOrDot 'x' = false := by
  refine ⟨?_, by decide, by decide⟩
  have h := (c6_number_scan_maximal_run ⟨"3.14x59".toList, 0, []⟩ ⟨"3.14x59".toList, 0, []⟩
    0 '3' ".14x59".toList (by decide) (by decide) (by decide) (by decide)).1
  exact h.trans (by decide)

/-- Peeking with the cursor at or past the end of input yields the
end-of-input symbol and the sentinel position `-1`. -/
theorem peek_at_end (l : List Char) (ct : List CharTable) (ppos : Int)
    (h0 : 0 ≤ ppos) (hlen : (l.length : Int) ≤ ppos) :
    Scanner.peekSymbol ⟨l, ppos, ct⟩ = (eof, -1, ⟨l, ppos, ct⟩) := by
  have hdropnil : l.drop ppos.toNat = [] := List.drop_eq_nil_of_le (by omega)
  have hnl : ¬ ppos < (l.length : Int) := by omega
  unfold Scanner.peekSymbol Scanner.skipWhitespace
  simp [h0, hdropnil, hnl]


/-- A renderer that produces nothing needs only one unit of fuel. -/
theorem runParser_emptyA (m : Nat) (s : Scanner) :
    (parseFuns (m + 1)).runParser .emptyA s = some ("", s) := rfl

/-- Peeking an all-whitespace input from the start consumes the whitespace
and yields the end-of-input symbol. -/
theorem peek_all_ws (l : List Char) (ct : List CharTable) (hws : l.all jsWs = true) :
    Scanner.peekSymbol ⟨l, 0, ct⟩ = (eof, -1, ⟨l, (l.length : Int), ct⟩) := by
  have htw : l.takeWhile jsWs = l := by
    induction l with
    | nil => rfl
    | cons c t ih =>
      simp only [List.all_cons, Bool.and_eq_true] at hws
      simp [List.takeWhile_cons, hws.1, ih hws.2]
  unfold Scanner.peekSymbol Scanner.skipWhitespace
  simp [htw]

/-- Full-expression parsing of an all-whitespace input yields the empty
fragment. -/
theorem exprParser_ws (n : Nat) (l : List Char) (hws : l.all jsWs = true) :
    (parseFuns (n + 4)).exprParser "" ⟨l, 0, []⟩ =
      some ("", ⟨l, (l.length : Int), []⟩) := by
  have hp0 := peek_all_ws l [] hws
  have hp1 := peek_at_end l [] (l.length : Int) (Int.ofNat_nonneg _) le_rfl
  have hnext0 : Scanner.nextSymbol ⟨l, 0, []⟩ = (eof, ⟨l, (l.length : Int), []⟩) := by
    unfold Scanner.nextSymbol
    rw [hp0]
    norm_num
  have hps : (parseFuns (n + 2)).parseSExpr ⟨l, 0, []⟩ =
      some ("", eof, ⟨l, (l.length : Int), []⟩) := by
    show (stepFuns (parseFuns (n + 1))).parseSExpr _ = _
    unfold stepFuns
    simp only [hnext0]
    rw [if_neg (by decide : ¬ (eof : Symbol).kind = .LeftBracket)]
    rw [show (eof : Symbol).action = .emptyA from rfl, runParser_emptyA]
  have hie : (parseFuns (n + 3)).iexprParser ⟨l, 0, []⟩ =
      some ("", ⟨l, (l.length : Int), []⟩) := by
    show (stepFuns (parseFuns (n + 2))).iexprParser _ = _
    unfold stepFuns
    simp only [hps, hp1]
    simp [eof]
  show (stepFuns (parseFuns (n + 3))).exprParser "" _ = _
  unfold stepFuns
  simp only [hie, hp1]
  simp [eof, terminators]
  intro h
  exact absurd h (by decide)


/-- C9: for any input consisting solely of whitespace characters (the empty
string included), the translation result is exactly the top-level container
wrapping an empty fragment. -/
theorem c9_whitespace_only_empty (input : String)
    (hws : input.toList.all jsWs = true) (inline : Bool) :
    asciiToMathML input inline =
      some ("<math display=\"" ++ (if inline then "inline" else "block") ++
        "\"><mstyle displaystyle=\"true\">" ++ "</mstyle></math>") := by
  unfold asciiToMathML enoughFuel
  rw [exprParser_ws (7 * input.toList.length) input.toList hws]
  simp [String.append_empty]

/-- C9 witness: a space-tab-space input and the empty input. -/
theorem c9_whitespace_only_witness :
    (" \t ".toList.all jsWs = true) ∧
    asciiToMathML " \t " false =
      some ("<math display=\"block\"><mstyle displaystyle=\"true\"></mstyle></math>") ∧
    asciiToMathML "" true =
      some ("<math display=\"inline\"><mstyle displaystyle=\"true\"></mstyle></math>") := by
  refine ⟨by decide, ?_, ?_⟩
  · exact (c9_whitespace_only_empty " \t " (by decide) false).trans (by decide)
  · exact (c9_whitespace_only_empty "" (by decide) true).trans (by decide)


/-- `Qrel` is reflexive. -/
theorem Qrel_refl (a : Int) : Qrel a a := ⟨Or.inl le_rfl, fun _ => rfl⟩

/-- A forward move from a non-negative cursor obeys the discipline. -/
theorem Qrel_of_le (a b : Int) (h0 : 0 ≤ a) (h : a ≤ b) : Qrel a b :=
  ⟨Or.inl h, fun hneg => absurd h0 (by omega)⟩

/-- The cursor discipline composes. -/
theorem Qrel_trans (a b c : Int) (h1 : Qrel a b) (h2 : Qrel b c) : Qrel a c := by
  unfold Qrel at *
  omega

/-- A scanner whose cursor is negative or at/past the end is exhausted. -/
theorem stuck_of_out_of_range (t : Scanner)
    (h : t.pos < 0 ∨ ((t.input.length : Int)) ≤ t.pos) : stuck t := by
  unfold stuck
  rcases h with h | h
  · rw [skip_neg t h]
    exact h
  · have h0 : (0 : Int) ≤ t.pos := le_trans (Int.ofNat_nonneg _) h
    have hdropnil : t.input.drop t.pos.toNat = [] := List.drop_eq_nil_of_le (by omega)
    unfold Scanner.skipWhitespace
    simp [h0, hdropnil]
    omega

/-- After whitespace skipping, an exhausted scanner's cursor is negative or
at/past the end. -/
theorem skip_fst_out_of_range (s : Scanner) (h : stuck s) :
    (s.skipWhitespace).1.pos < 0 ∨
      (((s.skipWhitespace).1.input.length : Int)) ≤ (s.skipWhitespace).1.pos := by
  unfold stuck at h
  rw [skip_snd] at h
  by_cases hlt : (s.skipWhitespace).1.pos < (((s.skipWhitespace).1.input.length : Int))
  · rw [if_pos hlt] at h
    exact Or.inl h
  · exact Or.inr (by omega)

/-- Whitespace skipping keeps an exhausted scanner exhausted. -/
theorem stuck_skip_fst (s : Scanner) (h : stuck s) : stuck (s.skipWhitespace).1 :=
  stuck_of_out_of_range _ (skip_fst_out_of_range s h)

/-- Whitespace skipping obeys the cursor discipline. -/
theorem skip_qrel (s : Scanner) : Qrel s.pos (s.skipWhitespace).1.pos := by
  by_cases h : (0 : Int) ≤ s.pos
  · exact Qrel_of_le _ _ h (skip_pos_ge s h)
  · rw [skip_neg s (by omega)]
    exact Qrel_refl _

/-- The scanner returned by `peekSymbol` is the whitespace-skipped one. -/
theorem peek_scanner (s : Scanner) : (s.peekSymbol).2.2 = (s.skipWhitespace).1 := by
  unfold Scanner.peekSymbol
  rcases hs : s.skipWhitespace with ⟨s1, ret⟩
  simp only [hs]
  repeat' split
  all_goals rfl

/-- Peeking an exhausted scanner returns the `eof` symbol. -/
theorem stuck_peek (s : Scanner) (h : stuck s) :
    s.peekSymbol = (eof, (s.skipWhitespace).2, (s.skipWhitespace).1) := by
  unfold stuck at h
  unfold Scanner.peekSymbol
  simp [h]


set_option maxRecDepth 40000 in
/-- No symbol-table entry has the end-of-input kind. -/
theorem tableNoEof : ∀ sym ∈ allTableSymbols, sym.kind ≠ SymbolKind.Eof := by decide

set_option maxRecDepth 40000 in
/-- Every symbol-table pattern is nonempty. -/
theorem tablePatternNonempty : ∀ sym ∈ allTableSymbols, 1 ≤ sym.input.length := by decide

set_option maxRecDepth 40000 in
/-- Matrix right brackets in the table render as plain brackets. -/
theorem tableMRBisBr : ∀ sym ∈ allTableSymbols,
    sym.kind = SymbolKind.MatrixRightBracket → sym.action.isBr = true := by decide

/-- Bucket members are table members. -/
theorem symsFor_subset (c : Char) (sym : Symbol) (h : sym ∈ symsFor c) :
    sym ∈ allTableSymbols := by
  unfold symsFor at h
  cases hf : symbolTable.find? (fun kv => kv.1 = c) with
  | none => rw [hf] at h; simp at h
  | some kv =>
    rw [hf] at h
    simp at h
    exact List.mem_flatMap.mpr ⟨kv, List.mem_of_find?_eq_some hf, h⟩

/-- A peeked symbol is `eof`, a text, number or error symbol, or a table
entry. -/
theorem peek_sym_cases (s : Scanner) :
    (s.peekSymbol).1 = eof ∨
    (∃ str, (s.peekSymbol).1 = text str) ∨
    (∃ str, (s.peekSymbol).1 = number str) ∨
    (∃ str, (s.peekSymbol).1 = error str) ∨
    (s.peekSymbol).1 ∈ allTableSymbols := by
  unfold Scanner.peekSymbol
  rcases hs : s.skipWhitespace with ⟨s1, ret⟩
  simp only [hs]
  split
  · exact Or.inl rfl
  · split
    · exact Or.inr (Or.inl ⟨_, rfl⟩)
    · split
      · exact Or.inr (Or.inr (Or.inl ⟨_, rfl⟩))
      · rcases hf : (symsFor (s1.input.getD ret.toNat ' ')).find?
            (fun sym => matchesAt s1.input ret.toNat sym.input) with _ | sym
        · simp only [hf]
          exact Or.inr (Or.inr (Or.inr (Or.inl ⟨_, rfl⟩)))
        · simp only [hf]
          exact Or.inr (Or.inr (Or.inr (Or.inr
            (symsFor_subset _ _ (List.mem_of_find?_eq_some hf)))))

/-- Only the `eof` symbol carries the `Eof` kind. -/
theorem peek_kind_eof (s : Scanner) (h : (s.peekSymbol).1.kind = SymbolKind.Eof) :
    (s.peekSymbol).1 = eof := by
  rcases peek_sym_cases s with hc | ⟨str, hc⟩ | ⟨str, hc⟩ | ⟨str, hc⟩ | hc
  · exact hc
  · rw [hc] at h; exact absurd h (by simp [text])
  · rw [hc] at h; exact absurd h (by simp [number])
  · rw [hc] at h; exact absurd h (by simp [error])
  · exact absurd h (tableNoEof _ hc)

/-- A peeked matrix right bracket renders as a plain bracket. -/
theorem peek_kind_mrb (s : Scanner)
    (h : (s.peekSymbol).1.kind = SymbolKind.MatrixRightBracket) :
    ((s.peekSymbol).1).action.isBr = true := by
  rcases peek_sym_cases s with hc | ⟨str, hc⟩ | ⟨str, hc⟩ | ⟨str, hc⟩ | hc
  · rw [hc] at h; exact absurd h (by simp [eof])
  · rw [hc] at h; exact absurd h (by simp [text])
  · rw [hc] at h; exact absurd h (by simp [number])
  · rw [hc] at h; exact absurd h (by simp [error])
  · exact tableMRBisBr _ hc h


/-- Peeking either hits the end of input (exhausted scanner) or returns a
non-`eof` symbol whose end position lies strictly past the whitespace-skipped
cursor. -/
theorem peekSymbol_cases (s : Scanner) :
    (stuck s ∧ s.peekSymbol = (eof, (s.skipWhitespace).2, (s.skipWhitespace).1)) ∨
    (¬ stuck s ∧
      0 ≤ (s.skipWhitespace).1.pos ∧
      (s.skipWhitespace).1.pos < (((s.skipWhitespace).1.input.length : Int)) ∧
      (s.skipWhitespace).1.pos + 1 ≤ (s.peekSymbol).2.1 ∧
      (s.peekSymbol).1.kind ≠ SymbolKind.Eof) := by
  by_cases hst : stuck s
  · exact Or.inl ⟨hst, stuck_peek s hst⟩
  · refine Or.inr ⟨hst, ?_⟩
    unfold stuck at hst
    have hret : 0 ≤ (s.skipWhitespace).2 := by omega
    obtain ⟨hreteq, hlt⟩ := skip_ret_spec s hret
    refine ⟨by omega, hlt, ?_⟩
    rcases hs : s.skipWhitespace with ⟨s1, ret⟩
    rw [hs] at hret hreteq hlt
    simp only at hret hreteq hlt
    have hcast : ((ret.toNat : Int)) = ret := Int.toNat_of_nonneg hret
    have hne : s1.input.drop ret.toNat ≠ [] := by
      intro hnil
      rw [List.drop_eq_nil_iff] at hnil
      omega
    obtain ⟨c, rest, hdrop⟩ := List.exists_cons_of_ne_nil hne
    have hget : s1.input.getD ret.toNat ' ' = c := by
      have h1 : (s1.input.drop ret.toNat).head? = some c := by rw [hdrop]; rfl
      rw [List.head?_drop] at h1
      simp [List.getD, h1]
    unfold Scanner.peekSymbol
    simp only [hs]
    rw [if_neg (by omega : ¬ ret < 0), hget]
    by_cases hq : c = '"'
    · rw [if_pos hq]
      constructor
      · simp only []
        omega
      · simp [text]
    · rw [if_neg hq]
      by_cases hd : c.isDigit
      · rw [if_pos hd]
        have hrun : 1 ≤ ((s1.input.drop ret.toNat).takeWhile digitOrDot).length := by
          rw [hdrop, List.takeWhile_cons, if_pos (by simp [digitOrDot, hd])]
          simp
        constructor
        · simp only []
          omega
        · simp [number]
      · rw [if_neg hd]
        rcases hf : (symsFor c).find? (fun sym => matchesAt s1.input ret.toNat sym.input)
            with _ | sym
        · simp only [hf]
          constructor
          · omega
          · simp [error]
        · simp only [hf]
          have hpat := tablePatternNonempty sym
            (symsFor_subset _ _ (List.mem_of_find?_eq_some hf))
          constructor
          · omega
          · exact tableNoEof sym (symsFor_subset _ _ (List.mem_of_find?_eq_some hf))


/-- The remaining-input measure is antitone along the cursor discipline. -/
theorem rem_mono (s s' : Scanner) (hin : s'.input = s.input)
    (hq : Qrel s.pos s'.pos) : rem s' ≤ rem s := by
  unfold rem
  unfold Qrel at hq
  rw [hin]
  split_ifs <;> omega

/-- `takeWhile` of a `dropWhile` residue is empty. -/
theorem takeWhile_dropWhile_nil (p : Char → Bool) (l : List Char) :
    (l.dropWhile p).takeWhile p = [] := by
  have h := List.head?_dropWhile_not p l
  cases hdw : l.dropWhile p with
  | nil => rfl
  | cons c t =>
    rw [hdw] at h
    simp only [List.head?] at h
    rw [List.takeWhile_cons, if_neg (by simp [h])]

/-- `skipWhitespace` on a cursor at a non-whitespace character (or out of
range) does not move. -/
theorem skip_of_nil_run (t : Scanner) (h0 : 0 ≤ t.pos)
    (htw : (t.input.drop t.pos.toNat).takeWhile jsWs = []) :
    t.skipWhitespace = (t, if t.pos < ((t.input.length : Int)) then t.pos else -1) := by
  unfold Scanner.skipWhitespace
  rw [if_pos h0, htw]
  simp

/-- `skipWhitespace` is idempotent. -/
theorem skip_idem (s : Scanner) :
    (s.skipWhitespace).1.skipWhitespace = ((s.skipWhitespace).1, (s.skipWhitespace).2) := by
  by_cases h0 : (0 : Int) ≤ s.pos
  · have hpos1 : (s.skipWhitespace).1 =
        { s with pos := s.pos + ((s.input.drop s.pos.toNat).takeWhile jsWs).length } := by
      unfold Scanner.skipWhitespace
      rw [if_pos h0]
    have htn : (s.pos + (((s.input.drop s.pos.toNat).takeWhile jsWs).length : Int)).toNat =
        s.pos.toNat + ((s.input.drop s.pos.toNat).takeWhile jsWs).length := by omega
    have hdrop2 : s.input.drop (s.pos.toNat +
        ((s.input.drop s.pos.toNat).takeWhile jsWs).length) =
        (s.input.drop s.pos.toNat).dropWhile jsWs := by
      rw [← List.drop_drop, drop_takeWhile_length]
    have htw2 : (s.input.drop (s.pos.toNat +
        ((s.input.drop s.pos.toNat).takeWhile jsWs).length)).takeWhile jsWs = [] := by
      rw [hdrop2]
      exact takeWhile_dropWhile_nil _ _
    have hrun : (((s.skipWhitespace).1).input.drop
        ((s.skipWhitespace).1).pos.toNat).takeWhile jsWs = [] := by
      rw [hpos1]
      dsimp only
      rw [htn]
      exact htw2
    have h0' : 0 ≤ ((s.skipWhitespace).1).pos := by
      rw [hpos1]
      dsimp only
      omega
    rw [skip_of_nil_run _ h0' hrun, Prod.mk.injEq]
    exact ⟨rfl, (skip_snd s).symm⟩
  · rw [skip_neg s (by omega)]
    dsimp only
    exact skip_neg s (by omega)

/-- Exhaustion is invariant under whitespace skipping. -/
theorem stuck_skip_iff (s : Scanner) : stuck (s.skipWhitespace).1 ↔ stuck s := by
  unfold stuck
  rw [skip_idem]

/-- Exhaustion depends only on the input and the cursor. -/
theorem stuck_fields (s t : Scanner) (hin : t.input = s.input) (hpos : t.pos = s.pos) :
    (stuck t ↔ stuck s) := by
  unfold stuck Scanner.skipWhitespace
  by_cases h0 : (0 : Int) ≤ s.pos <;>
    simp [hin, hpos, h0]

/-- `nextSymbol` returns the peeked symbol. -/
theorem next_fst (s : Scanner) : (s.nextSymbol).1 = (s.peekSymbol).1 := by
  unfold Scanner.nextSymbol
  rcases hp : s.peekSymbol with ⟨sym, pos, s1⟩
  simp

/-- Committing a strictly advanced cursor shrinks the remaining input. -/
theorem rem_commit_lt (s1 base : Scanner) (pos : Int)
    (hin : s1.input = base.input)
    (h0b : 0 ≤ base.pos) (hle : base.pos ≤ s1.pos)
    (hlt : s1.pos < ((s1.input.length : Int))) (hadv : s1.pos + 1 ≤ pos) :
    rem { s1 with pos := pos } < rem base := by
  rw [hin] at hlt
  unfold rem
  dsimp only
  rw [hin]
  rw [if_neg (by omega : ¬ pos < 0), if_neg (by omega : ¬ base.pos < 0)]
  omega

/-- `nextSymbol` preserves input and tables and obeys the cursor
discipline. -/
theorem next_parts (s : Scanner) :
    ((s.nextSymbol).2).input = s.input ∧ ((s.nextSymbol).2).charTables = s.charTables ∧
    Qrel s.pos ((s.nextSymbol).2).pos := by
  have hsc := peek_scanner s
  have hparts := skip_parts s
  rcases peekSymbol_cases s with ⟨hst, hpeek⟩ | ⟨hst, h0, hlt, hadv, hkind⟩
  · unfold Scanner.nextSymbol
    rw [hpeek]
    dsimp only
    unfold stuck at hst
    rw [if_neg (by omega)]
    exact ⟨hparts.1, hparts.2, skip_qrel s⟩
  · unfold Scanner.nextSymbol
    rcases hp : s.peekSymbol with ⟨sym, pos, s1⟩
    rw [hp] at hsc hadv
    dsimp only at hsc hadv ⊢
    subst hsc
    by_cases hpos : (0 : Int) ≤ pos
    · rw [if_pos hpos]
      refine ⟨hparts.1, hparts.2, Qrel_trans _ _ _ (skip_qrel s) (Qrel_of_le _ _ h0 ?_)⟩
      dsimp only
      omega
    · rw [if_neg hpos]
      exact ⟨hparts.1, hparts.2, skip_qrel s⟩

/-- `nextSymbol` on an exhausted scanner returns `eof` and stays
exhausted. -/
theorem next_stuck (s : Scanner) (h : stuck s) :
    s.nextSymbol = (eof, (s.skipWhitespace).1) ∧ stuck ((s.nextSymbol).2) := by
  have hpeek := stuck_peek s h
  have hns : s.nextSymbol = (eof, (s.skipWhitespace).1) := by
    unfold Scanner.nextSymbol
    rw [hpeek]
    dsimp only
    unfold stuck at h
    rw [if_neg (by omega)]
  refine ⟨hns, ?_⟩
  rw [hns]
  exact (stuck_skip_iff s).mpr h

/-- `nextSymbol` on a non-exhausted scanner returns a non-`eof` symbol and
strictly consumes input. -/
theorem next_not_stuck (s : Scanner) (h : ¬ stuck s) :
    ((s.nextSymbol).1).kind ≠ SymbolKind.Eof ∧
    rem ((s.nextSymbol).2) < rem s ∧ 0 ≤ s.pos := by
  rcases peekSymbol_cases s with ⟨hst, _⟩ | ⟨hst, h0, hlt, hadv, hkind⟩
  · exact absurd hst h
  · have hsc := peek_scanner s
    have hparts := skip_parts s
    have h0s : 0 ≤ s.pos := by
      by_contra hneg
      exact h (stuck_of_out_of_range s (Or.inl (by omega)))
    refine ⟨by rw [next_fst]; exact hkind, ?_, h0s⟩
    unfold Scanner.nextSymbol
    rcases hp : s.peekSymbol with ⟨sym, pos, s1⟩
    rw [hp] at hsc hadv
    dsimp only at hsc hadv ⊢
    rw [if_pos (by omega : (0:Int) ≤ pos)]
    have hle := skip_pos_ge s h0s
    rw [hsc]
    exact rem_commit_lt ((s.skipWhitespace).1) s pos hparts.1 h0s hle hlt hadv


/-- `Pre` is reflexive. -/
theorem Pre_refl (s : Scanner) : Pre s s :=
  ⟨rfl, rfl, Qrel_refl _, id⟩

/-- `Pre` composes. -/
theorem Pre_trans (s a b : Scanner) (h1 : Pre s a) (h2 : Pre a b) : Pre s b :=
  ⟨h2.1.trans h1.1, h2.2.1.trans h1.2.1,
   Qrel_trans _ _ _ h1.2.2.1 h2.2.2.1, fun h => h2.2.2.2 (h1.2.2.2 h)⟩

/-- `Pre` implies the remaining-input measure does not grow. -/
theorem Pre_rem (s s' : Scanner) (h : Pre s s') : rem s' ≤ rem s :=
  rem_mono s s' h.1 h.2.2.1

/-- Whitespace skipping satisfies the exit discipline. -/
theorem Pre_skip (s : Scanner) : Pre s ((s.skipWhitespace).1) :=
  ⟨(skip_parts s).1, (skip_parts s).2, skip_qrel s, (stuck_skip_iff s).mpr⟩

/-- Consuming one symbol satisfies the exit discipline. -/
theorem Pre_next (s : Scanner) : Pre s ((s.nextSymbol).2) := by
  refine ⟨(next_parts s).1, (next_parts s).2.1, (next_parts s).2.2, fun h => ?_⟩
  rw [(next_stuck s h).1]
  exact (stuck_skip_iff s).mpr h

/-- On an exhausted scanner, peeking yields the `eof` symbol, a negative
position, and the whitespace-skipped state. -/
theorem peek_stuck_eq (s : Scanner) (sym : Symbol) (pos : Int) (s1 : Scanner)
    (hp : s.peekSymbol = (sym, pos, s1)) (h : stuck s) :
    sym = eof ∧ pos < 0 ∧ s1 = (s.skipWhitespace).1 := by
  have h2 := stuck_peek s h
  rw [hp] at h2
  unfold stuck at h
  refine ⟨congrArg Prod.fst h2, ?_, ?_⟩
  · have h3 := congrArg (fun t => t.2.1) h2
    dsimp only at h3
    omega
  · exact congrArg (fun t => t.2.2) h2

/-- Committing the position returned by a successful (non-`eof`) peek
satisfies the exit discipline and strictly shrinks the remaining input. -/
theorem Pre_commit (s : Scanner) (sym : Symbol) (pos : Int) (s1 : Scanner)
    (hp : s.peekSymbol = (sym, pos, s1)) (hkind : sym.kind ≠ SymbolKind.Eof) :
    Pre s { s1 with pos := pos } ∧ rem { s1 with pos := pos } < rem s ∧ ¬ stuck s := by
  have hst : ¬ stuck s := by
    intro h
    have := stuck_peek s h
    rw [hp] at this
    have hsym : sym = eof := congrArg Prod.fst this
    rw [hsym] at hkind
    exact hkind rfl
  rcases peekSymbol_cases s with ⟨h, _⟩ | ⟨_, h0, hlt, hadv, _⟩
  · exact absurd h hst
  · have hsc : s1 = (s.skipWhitespace).1 := by
      have := peek_scanner s
      rw [hp] at this
      exact this
    have h0s : 0 ≤ s.pos := by
      by_contra hneg
      exact hst (stuck_of_out_of_range s (Or.inl (by omega)))
    rw [hp] at hadv
    dsimp only at hadv
    have hle := skip_pos_ge s h0s
    refine ⟨⟨?_, ?_, ?_, fun h => absurd h hst⟩, ?_, hst⟩
    · rw [hsc]
      exact (skip_parts s).1
    · rw [hsc]
      exact (skip_parts s).2
    · show Qrel s.pos pos
      exact Qrel_trans _ _ _ (skip_qrel s)
        (Qrel_of_le ((s.skipWhitespace).1.pos) pos h0 (by omega))
    · rw [hsc]
      exact rem_commit_lt _ s pos (skip_parts s).1 h0s hle hlt hadv


/-- Committing a peeked position satisfies the exit discipline even when the
peek hit the end of input (that is where the `-1` sentinel enters). -/
theorem Pre_commit_any (s : Scanner) (sym : Symbol) (pos : Int) (s1 : Scanner)
    (hp : s.peekSymbol = (sym, pos, s1)) :
    Pre s { s1 with pos := pos } := by
  by_cases hst : stuck s
  · obtain ⟨hsym, hneg, hsc⟩ := peek_stuck_eq s sym pos s1 hp hst
    have hpos2 : pos = (s.skipWhitespace).2 := by
      have h2 := stuck_peek s hst
      rw [hp] at h2
      have h3 := congrArg (fun t => t.2.1) h2
      dsimp only at h3
      exact h3
    subst hsc
    refine ⟨(skip_parts s).1, (skip_parts s).2, ?_, fun _ => ?_⟩
    · show Qrel s.pos pos
      by_cases h0 : (0 : Int) ≤ s.pos
      · have hb : pos = -1 := by
          rw [hpos2, skip_snd] at hneg ⊢
          have hge := skip_pos_ge s h0
          by_cases hlt2 : (s.skipWhitespace).1.pos < (((s.skipWhitespace).1.input.length : Int))
          · rw [if_pos hlt2] at hneg
            omega
          · rw [if_neg hlt2]
        exact ⟨Or.inr hb, fun hc => by omega⟩
      · have hb : pos = s.pos := by
          rw [hpos2, skip_neg s (by omega)]
        exact ⟨Or.inl (by omega), fun _ => hb⟩
    · exact stuck_of_out_of_range _ (Or.inl hneg)
  · have hkind : sym.kind ≠ SymbolKind.Eof := by
      rcases peekSymbol_cases s with ⟨h, _⟩ | ⟨_, _, _, _, hk⟩
      · exact absurd h hst
      · rw [hp] at hk
        exact hk
    exact (Pre_commit s sym pos s1 hp hkind).1

/-- `Eof` is a terminator. -/
theorem contains_eof_true : terminators.contains SymbolKind.Eof = true := by decide

/-- Core invariant of all seven grammar procedures, by induction on fuel:
each preserves the input and the character-table stack, moves the cursor
monotonically except for the `-1` sentinel, keeps an exhausted scanner
exhausted, and (for the expression-level procedures) strictly consumes input
when the scanner is not exhausted. -/
theorem pres (n : Nat) :
    (∀ s r sym s', (parseFuns n).parseSExpr s = some (r, sym, s') →
      Pre s s' ∧ (¬ stuck s → rem s' < rem s)) ∧
    (∀ s r s', (parseFuns n).sexprParser s = some (r, s') →
      Pre s s' ∧ (¬ stuck s → rem s' < rem s)) ∧
    (∀ s r s', (parseFuns n).iexprParser s = some (r, s') →
      Pre s s' ∧ (¬ stuck s → rem s' < rem s)) ∧
    (∀ res s r s', (parseFuns n).exprParser res s = some (r, s') →
      Pre s s' ∧ (¬ stuck s → rem s' < rem s)) ∧
    (∀ lb res s r s', (parseFuns n).matrixParser lb res s = some (r, s') → Pre s s') ∧
    (∀ res s r s', (parseFuns n).matrixRowParser res s = some (r, s') →
      Pre s s' ∧ (¬ stuck s → (s.peekSymbol).1.kind ≠ SymbolKind.MatrixRightBracket →
        rem s' < rem s)) ∧
    (∀ act s r s', (parseFuns n).runParser act s = some (r, s') → Pre s s') := by
  induction n with
  | zero =>
    refine ⟨?_, ?_, ?_, ?_, ?_, ?_, ?_⟩ <;>
      · intros
        simp_all [parseFuns, noFuel]
  | succ n ih =>
    obtain ⟨ihPS, ihSX, ihIX, ihEX, ihMP, ihMR, ihRP⟩ := ih
    refine ⟨?_, ?_, ?_, ?_, ?_, ?_, ?_⟩
    · -- parseSExpr
      intro s r sym0 s' h
      rw [show parseFuns (n + 1) = stepFuns (parseFuns n) from rfl] at h
      unfold stepFuns at h
      dsimp only at h
      rcases hns : s.nextSymbol with ⟨sym, s1⟩
      rw [hns] at h
      dsimp only at h
      have hP1 : Pre s s1 := by
        have := Pre_next s
        rw [hns] at this
        exact this
      by_cases hk : sym.kind = SymbolKind.LeftBracket
      · rw [if_pos hk] at h
        rcases hrp : (parseFuns n).runParser sym.action s1 with _ | ⟨lbrac, s2⟩
        · rw [hrp] at h
          exact Option.noConfusion h
        · rw [hrp] at h
          dsimp only at h
          rcases hpk : s2.peekSymbol with ⟨sym2, p2, s3⟩
          rw [hpk] at h
          dsimp only at h
          have hP3 : Pre s2 s3 := by
            have h1 := peek_scanner s2
            rw [hpk] at h1
            dsimp only at h1
            rw [h1]
            exact Pre_skip s2
          by_cases hk2 : sym2.kind = SymbolKind.RightBracket
          · rw [if_pos hk2] at h
            dsimp only at h
            have hP4 : Pre s3 s3 := Pre_refl s3
            rcases hns2 : s3.nextSymbol with ⟨sym2b, s5⟩
            rw [hns2] at h
            dsimp only at h
            rcases hrp2 : (parseFuns n).runParser
                (if sym2b.kind = SymbolKind.RightBracket then sym2b
                  else error "Missing closing paren").action s5 with _ | ⟨rbrac, s6⟩
            · rw [hrp2] at h
              dsimp only at h
              exact Option.noConfusion h
            · rw [hrp2] at h
              dsimp only at h
              simp only [Option.some.injEq, Prod.mk.injEq] at h
              obtain ⟨h1, h2, h3⟩ := h
              subst h3
              have hP2 := ihRP _ _ _ _ hrp
              have hP5 : Pre s3 s5 := by
                have := Pre_next s3
                rw [hns2] at this
                exact this
              have hP6 := ihRP _ _ _ _ hrp2
              have hPre : Pre s s6 := Pre_trans _ _ _ hP1 (Pre_trans _ _ _ hP2
                (Pre_trans _ _ _ hP3 (Pre_trans _ _ _ hP4 (Pre_trans _ _ _ hP5 hP6))))
              refine ⟨hPre, fun hst => ?_⟩
              have hlt1 := (next_not_stuck s hst).2.1
              rw [hns] at hlt1
              dsimp only at hlt1
              have hle6 : rem s6 ≤ rem s1 := le_trans (Pre_rem _ _ hP6)
                (le_trans (Pre_rem _ _ hP5) (le_trans (Pre_rem _ _ hP4)
                  (le_trans (Pre_rem _ _ hP3) (Pre_rem _ _ hP2))))
              omega
          · rw [if_neg hk2] at h
            rcases hex : (parseFuns n).exprParser "" s3 with _ | ⟨exp, s4⟩
            · rw [hex] at h
              dsimp only at h
              exact Option.noConfusion h
            · rw [hex] at h
              dsimp only at h
              have hP4 : Pre s3 s4 := (ihEX "" s3 exp s4 hex).1
              rcases hns2 : s4.nextSymbol with ⟨sym2b, s5⟩
              rw [hns2] at h
              dsimp only at h
              rcases hrp2 : (parseFuns n).runParser
                  (if sym2b.kind = SymbolKind.RightBracket then sym2b
                    else error "Missing closing paren").action s5 with _ | ⟨rbrac, s6⟩
              · rw [hrp2] at h
                dsimp only at h
                exact Option.noConfusion h
              · rw [hrp2] at h
                dsimp only at h
                simp only [Option.some.injEq, Prod.mk.injEq] at h
                obtain ⟨h1, h2, h3⟩ := h
                subst h3
                have hP2 := ihRP _ _ _ _ hrp
                have hP5 : Pre s4 s5 := by
                  have := Pre_next s4
                  rw [hns2] at this
                  exact this
                have hP6 := ihRP _ _ _ _ hrp2
                have hPre : Pre s s6 := Pre_trans _ _ _ hP1 (Pre_trans _ _ _ hP2
                  (Pre_trans _ _ _ hP3 (Pre_trans _ _ _ hP4 (Pre_trans _ _ _ hP5 hP6))))
                refine ⟨hPre, fun hst => ?_⟩
                have hlt1 := (next_not_stuck s hst).2.1
                rw [hns] at hlt1
                dsimp only at hlt1
                have hle6 : rem s6 ≤ rem s1 := le_trans (Pre_rem _ _ hP6)
                  (le_trans (Pre_rem _ _ hP5) (le_trans (Pre_rem _ _ hP4)
                    (le_trans (Pre_rem _ _ hP3) (Pre_rem _ _ hP2))))
                omega
      · rw [if_neg hk] at h
        rcases hrp : (parseFuns n).runParser sym.action s1 with _ | ⟨r2, s2⟩
        · rw [hrp] at h
          exact Option.noConfusion h
        · rw [hrp] at h
          dsimp only at h
          simp only [Option.some.injEq, Prod.mk.injEq] at h
          obtain ⟨h1, h2, h3⟩ := h
          subst h3
          have hP2 := ihRP _ _ _ _ hrp
          refine ⟨Pre_trans _ _ _ hP1 hP2, fun hst => ?_⟩
          have hlt1 := (next_not_stuck s hst).2.1
          rw [hns] at hlt1
          dsimp only at hlt1
          exact lt_of_le_of_lt (Pre_rem _ _ hP2) hlt1
    · -- sexprParser
      intro s r s' h
      rw [show parseFuns (n + 1) = stepFuns (parseFuns n) from rfl] at h
      unfold stepFuns at h
      dsimp only at h
      rcases hps : (parseFuns n).parseSExpr s with _ | ⟨r0, sym, s1⟩
      · rw [hps] at h
        exact Option.noConfusion h
      · rw [hps] at h
        simp only [Option.some.injEq, Prod.mk.injEq] at h
        obtain ⟨h1, h2⟩ := h
        subst h2
        exact ihPS s r0 sym s1 hps
    · -- iexprParser
      intro s r s' h
      rw [show parseFuns (n + 1) = stepFuns (parseFuns n) from rfl] at h
      unfold stepFuns at h
      dsimp only at h
      rcases hps : (parseFuns n).parseSExpr s with _ | ⟨res0, sym, s1⟩
      · rw [hps] at h
        exact Option.noConfusion h
      · rw [hps] at h
        dsimp only at h
        obtain ⟨hP1, hS1⟩ := ihPS _ _ _ _ hps
        rcases hpk : s1.peekSymbol with ⟨next, pos, s2⟩
        rw [hpk] at h
        dsimp only at h
        have hP2 : Pre s1 s2 := by
          have h1 := peek_scanner s1
          rw [hpk] at h1
          dsimp only at h1
          rw [h1]
          exact Pre_skip s1
      -- helper giving kind-not-eof from a nonempty peeked input
        by_cases hu : next.input = "_"
        · rw [if_pos hu] at h
          have hkind : next.kind ≠ SymbolKind.Eof := by
            intro he
            have h2 := peek_kind_eof s1 (by rw [hpk]; exact he)
            rw [hpk] at h2
            dsimp only at h2
            rw [h2] at hu
            exact absurd hu (by decide)
          obtain ⟨hPc, hremc, hnstk1⟩ := Pre_commit s1 next pos s2 hpk hkind
          rcases hsx : (parseFuns n).sexprParser { s2 with pos := pos } with _ | ⟨sb, s3⟩
          · rw [hsx] at h
            dsimp only at h
            exact Option.noConfusion h
          · rw [hsx] at h
            dsimp only at h
            obtain ⟨hPsx, _⟩ := ihSX _ _ _ hsx
            rcases hpk2 : s3.peekSymbol with ⟨n2, p2, s4⟩
            rw [hpk2] at h
            dsimp only at h
            have hP3 : Pre s3 s4 := by
              have h1 := peek_scanner s3
              rw [hpk2] at h1
              dsimp only at h1
              rw [h1]
              exact Pre_skip s3
            by_cases hu2 : n2.input = "^"
            · rw [if_pos hu2] at h
              have hkind2 : n2.kind ≠ SymbolKind.Eof := by
                intro he
                have h2 := peek_kind_eof s3 (by rw [hpk2]; exact he)
                rw [hpk2] at h2
                dsimp only at h2
                rw [h2] at hu2
                exact absurd hu2 (by decide)
              obtain ⟨hPc2, _, _⟩ := Pre_commit s3 n2 p2 s4 hpk2 hkind2
              rcases hsx2 : (parseFuns n).sexprParser { s4 with pos := p2 } with _ | ⟨sp, s6⟩
              · rw [hsx2] at h
                dsimp only at h
                exact Option.noConfusion h
              · rw [hsx2] at h
                dsimp only at h
                obtain ⟨hPsx2, _⟩ := ihSX _ _ _ hsx2
                simp only [Option.some.injEq, Prod.mk.injEq] at h
                obtain ⟨h1, h2⟩ := h
                subst h2
                have hPre : Pre s s6 := Pre_trans _ _ _ hP1 (Pre_trans _ _ _ hPc
                  (Pre_trans _ _ _ hPsx (Pre_trans _ _ _ hPc2 hPsx2)))
                refine ⟨hPre, fun hst => ?_⟩
                have hr1 := hS1 hst
                have hr2 : rem s6 ≤ rem s1 := le_trans (Pre_rem _ _ hPsx2)
                  (le_trans (Pre_rem _ _ hPc2) (le_trans (Pre_rem _ _ hPsx)
                    (Pre_rem _ _ hPc)))
                omega
            · rw [if_neg hu2] at h
              dsimp only at h
              simp only [Option.some.injEq, Prod.mk.injEq] at h
              obtain ⟨h1, h2⟩ := h
              subst h2
              have hPre : Pre s s4 := Pre_trans _ _ _ hP1 (Pre_trans _ _ _ hPc
                (Pre_trans _ _ _ hPsx hP3))
              refine ⟨hPre, fun hst => ?_⟩
              have hr1 := hS1 hst
              have hr2 : rem s4 ≤ rem s1 := le_trans (Pre_rem _ _ hP3)
                (le_trans (Pre_rem _ _ hPsx) (Pre_rem _ _ hPc))
              omega
        · rw [if_neg hu] at h
          dsimp only at h
          by_cases hu2 : next.input = "^"
          · rw [if_pos hu2] at h
            have hkind2 : next.kind ≠ SymbolKind.Eof := by
              intro he
              have h2 := peek_kind_eof s1 (by rw [hpk]; exact he)
              rw [hpk] at h2
              dsimp only at h2
              rw [h2] at hu2
              exact absurd hu2 (by decide)
            obtain ⟨hPc, _, _⟩ := Pre_commit s1 next pos s2 hpk hkind2
            rcases hsx2 : (parseFuns n).sexprParser { s2 with pos := pos } with _ | ⟨sp, s6⟩
            · rw [hsx2] at h
              dsimp only at h
              exact Option.noConfusion h
            · rw [hsx2] at h
              dsimp only at h
              obtain ⟨hPsx2, _⟩ := ihSX _ _ _ hsx2
              simp only [Option.some.injEq, Prod.mk.injEq] at h
              obtain ⟨h1, h2⟩ := h
              subst h2
              have hPre : Pre s s6 := Pre_trans _ _ _ hP1 (Pre_trans _ _ _ hPc hPsx2)
              refine ⟨hPre, fun hst => ?_⟩
              have hr1 := hS1 hst
              have hr2 : rem s6 ≤ rem s1 := le_trans (Pre_rem _ _ hPsx2) (Pre_rem _ _ hPc)
              omega
          · rw [if_neg hu2] at h
            dsimp only at h
            simp only [Option.some.injEq, Prod.mk.injEq] at h
            obtain ⟨h1, h2⟩ := h
            subst h2
            refine ⟨Pre_trans _ _ _ hP1 hP2, fun hst => ?_⟩
            have hr1 := hS1 hst
            have hr2 : rem s2 ≤ rem s1 := Pre_rem _ _ hP2
            omega
    · -- exprParser
      intro res s r s' h
      rw [show parseFuns (n + 1) = stepFuns (parseFuns n) from rfl] at h
      unfold stepFuns at h
      dsimp only at h
      rcases hix : (parseFuns n).iexprParser s with _ | ⟨exp, s1⟩
      · rw [hix] at h
        exact Option.noConfusion h
      · rw [hix] at h
        dsimp only at h
        obtain ⟨hP1, hS1⟩ := ihIX _ _ _ hix
        rcases hpk : s1.peekSymbol with ⟨next, pos, s2⟩
        rw [hpk] at h
        dsimp only at h
        have hP2 : Pre s1 s2 := by
          have h1 := peek_scanner s1
          rw [hpk] at h1
          dsimp only at h1
          rw [h1]
          exact Pre_skip s1
        by_cases ht : terminators.contains next.kind = true
        · rw [if_pos ht] at h
          simp only [Option.some.injEq, Prod.mk.injEq] at h
          obtain ⟨h1, h2⟩ := h
          subst h2
          refine ⟨Pre_trans _ _ _ hP1 hP2, fun hst => ?_⟩
          have hr1 := hS1 hst
          have hr2 := Pre_rem _ _ hP2
          omega
        · rw [if_neg ht] at h
          by_cases hsl : next.input = "/"
          · rw [if_pos hsl] at h
            have hkind : next.kind ≠ SymbolKind.Eof := by
              intro he
              rw [he] at ht
              exact ht contains_eof_true
            obtain ⟨hPc, _, _⟩ := Pre_commit s1 next pos s2 hpk hkind
            rcases hq : (parseFuns n).iexprParser { s2 with pos := pos } with _ | ⟨quot, s3⟩
            · rw [hq] at h
              dsimp only at h
              exact Option.noConfusion h
            · rw [hq] at h
              dsimp only at h
              obtain ⟨hPq, _⟩ := ihIX _ _ _ hq
              rcases hpk2 : s3.peekSymbol with ⟨next2, p2, s4⟩
              rw [hpk2] at h
              dsimp only at h
              have hP4 : Pre s3 s4 := by
                have h1 := peek_scanner s3
                rw [hpk2] at h1
                dsimp only at h1
                rw [h1]
                exact Pre_skip s3
              by_cases ht2 : terminators.contains next2.kind = true
              · rw [if_pos ht2] at h
                simp only [Option.some.injEq, Prod.mk.injEq] at h
                obtain ⟨h1, h2⟩ := h
                subst h2
                have hPre : Pre s s4 := Pre_trans _ _ _ hP1 (Pre_trans _ _ _ hPc
                  (Pre_trans _ _ _ hPq hP4))
                refine ⟨hPre, fun hst => ?_⟩
                have hr1 := hS1 hst
                have hr2 : rem s4 ≤ rem s1 := le_trans (Pre_rem _ _ hP4)
                  (le_trans (Pre_rem _ _ hPq) (Pre_rem _ _ hPc))
                omega
              · rw [if_neg ht2] at h
                obtain ⟨hPr, _⟩ := ihEX _ _ _ _ h
                have hPre : Pre s s' := Pre_trans _ _ _ hP1 (Pre_trans _ _ _ hPc
                  (Pre_trans _ _ _ hPq (Pre_trans _ _ _ hP4 hPr)))
                refine ⟨hPre, fun hst => ?_⟩
                have hr1 := hS1 hst
                have hr2 : rem s' ≤ rem s1 := le_trans (Pre_rem _ _ hPr)
                  (le_trans (Pre_rem _ _ hP4) (le_trans (Pre_rem _ _ hPq)
                    (Pre_rem _ _ hPc)))
                omega
          · rw [if_neg hsl] at h
            obtain ⟨hPr, _⟩ := ihEX _ _ _ _ h
            have hPre : Pre s s' := Pre_trans _ _ _ hP1 (Pre_trans _ _ _ hP2 hPr)
            refine ⟨hPre, fun hst => ?_⟩
            have hr1 := hS1 hst
            have hr2 : rem s' ≤ rem s1 := le_trans (Pre_rem _ _ hPr) (Pre_rem _ _ hP2)
            omega
    · -- matrixParser
      intro lb res s r s' h
      rw [show parseFuns (n + 1) = stepFuns (parseFuns n) from rfl] at h
      unfold stepFuns at h
      dsimp only at h
      rcases hpk : s.peekSymbol with ⟨sym, pos, s1⟩
      rw [hpk] at h
      dsimp only at h
      have hP1 : Pre s s1 := by
        have h1 := peek_scanner s
        rw [hpk] at h1
        dsimp only at h1
        rw [h1]
        exact Pre_skip s
      by_cases hk : sym.kind = SymbolKind.Eof ∨ sym.kind = SymbolKind.MatrixRightBracket
      · rw [if_pos hk] at h
        have hPc : Pre s { s1 with pos := pos } := Pre_commit_any s sym pos s1 hpk
        rcases hrp : (parseFuns n).runParser sym.action { s1 with pos := pos }
            with _ | ⟨rb, s3⟩
        · rw [hrp] at h
          exact Option.noConfusion h
        · rw [hrp] at h
          dsimp only at h
          simp only [Option.some.injEq, Prod.mk.injEq] at h
          obtain ⟨h1, h2⟩ := h
          subst h2
          exact Pre_trans _ _ _ hPc (ihRP _ _ _ _ hrp)
      · rw [if_neg hk] at h
        rcases hmr : (parseFuns n).matrixRowParser "" s1 with _ | ⟨row, s2⟩
        · rw [hmr] at h
          exact Option.noConfusion h
        · rw [hmr] at h
          dsimp only at h
          exact Pre_trans _ _ _ hP1 (Pre_trans _ _ _ (ihMR _ _ _ _ hmr).1
            (ihMP _ _ _ _ _ h))
    · -- matrixRowParser
      intro res s r s' h
      rw [show parseFuns (n + 1) = stepFuns (parseFuns n) from rfl] at h
      unfold stepFuns at h
      dsimp only at h
      rcases hpk : s.peekSymbol with ⟨sym, pos, s1⟩
      rw [hpk] at h
      dsimp only at h
      have hP1 : Pre s s1 := by
        have h1 := peek_scanner s
        rw [hpk] at h1
        dsimp only at h1
        rw [h1]
        exact Pre_skip s
      by_cases hk : sym.kind = SymbolKind.Eof ∨ sym.kind = SymbolKind.MatrixRowSep
      · rw [if_pos hk] at h
        simp only [Option.some.injEq, Prod.mk.injEq] at h
        obtain ⟨h1, h2⟩ := h
        subst h2
        refine ⟨Pre_commit_any s sym pos s1 hpk, fun hst _ => ?_⟩
        have hkind : sym.kind ≠ SymbolKind.Eof := by
          intro he
          have h2 := peek_kind_eof s (by rw [hpk]; exact he)
          rw [hpk] at h2
          dsimp only at h2
          rcases peekSymbol_cases s with ⟨hc, _⟩ | ⟨_, _, _, _, hc⟩
          · exact hst hc
          · rw [hpk] at hc
            exact hc he
        exact (Pre_commit s sym pos s1 hpk hkind).2.1
      · rw [if_neg hk] at h
        by_cases hk2 : sym.kind = SymbolKind.MatrixRightBracket
        · rw [if_pos hk2] at h
          simp only [Option.some.injEq, Prod.mk.injEq] at h
          obtain ⟨h1, h2⟩ := h
          subst h2
          refine ⟨hP1, fun _ hmrb => ?_⟩
          exact absurd hk2 hmrb
        · rw [if_neg hk2] at h
          rcases hex : (parseFuns n).exprParser "" s1 with _ | ⟨cell, s2⟩
          · rw [hex] at h
            exact Option.noConfusion h
          · rw [hex] at h
            dsimp only at h
            obtain ⟨hPex, hSex⟩ := ihEX _ _ _ _ hex
            obtain ⟨hPr, _⟩ := ihMR _ _ _ _ h
            refine ⟨Pre_trans _ _ _ hP1 (Pre_trans _ _ _ hPex hPr), fun hst _ => ?_⟩
            have hsc : s1 = (s.skipWhitespace).1 := by
              have h1 := peek_scanner s
              rw [hpk] at h1
              exact h1
            have hst1 : ¬ stuck s1 := by
              rw [hsc]
              intro hc
              exact hst ((stuck_skip_iff s).mp hc)
            have hr2 := hSex hst1
            have hr1 : rem s1 ≤ rem s := Pre_rem _ _ hP1
            have hr3 : rem s' ≤ rem s2 := Pre_rem _ _ hPr
            omega
    · -- runParser
      intro act s r s' h
      rw [show parseFuns (n + 1) = stepFuns (parseFuns n) from rfl] at h
      unfold stepFuns at h
      dsimp only at h
      cases act with
      | textA content =>
        simp only [Option.some.injEq, Prod.mk.injEq] at h
        rw [← h.2]
        exact Pre_refl s
      | numberA str =>
        simp only [Option.some.injEq, Prod.mk.injEq] at h
        rw [← h.2]
        exact Pre_refl s
      | errorA msg =>
        simp only [Option.some.injEq, Prod.mk.injEq] at h
        rw [← h.2]
        exact Pre_refl s
      | emptyA =>
        simp only [Option.some.injEq, Prod.mk.injEq] at h
        rw [← h.2]
        exact Pre_refl s
      | identA output =>
        simp only [Option.some.injEq, Prod.mk.injEq] at h
        rw [← h.2]
        exact Pre_refl s
      | operA output =>
        simp only [Option.some.injEq, Prod.mk.injEq] at h
        rw [← h.2]
        exact Pre_refl s
      | textOperA output =>
        simp only [Option.some.injEq, Prod.mk.injEq] at h
        rw [← h.2]
        exact Pre_refl s
      | brA output =>
        simp only [Option.some.injEq, Prod.mk.injEq] at h
        rw [← h.2]
        exact Pre_refl s
      | unaryA operStr =>
        dsimp only at h
        rcases hsx : (parseFuns n).sexprParser s with _ | ⟨arg, s1⟩
        · rw [hsx] at h
          dsimp only at h
          exact Option.noConfusion h
        · rw [hsx] at h
          dsimp only at h
          simp only [Option.some.injEq, Prod.mk.injEq] at h
          rw [← h.2]
          exact (ihSX s arg s1 hsx).1
      | unaryEmbedA tag =>
        dsimp only at h
        rcases hsx : (parseFuns n).sexprParser s with _ | ⟨arg, s1⟩
        · rw [hsx] at h
          dsimp only at h
          exact Option.noConfusion h
        · rw [hsx] at h
          dsimp only at h
          simp only [Option.some.injEq, Prod.mk.injEq] at h
          rw [← h.2]
          exact (ihSX s arg s1 hsx).1
      | unaryEmbedWithA tag arg2 =>
        dsimp only at h
        rcases hsx : (parseFuns n).sexprParser s with _ | ⟨arg, s1⟩
        · rw [hsx] at h
          dsimp only at h
          exact Option.noConfusion h
        · rw [hsx] at h
          dsimp only at h
          simp only [Option.some.injEq, Prod.mk.injEq] at h
          rw [← h.2]
          exact (ihSX s arg s1 hsx).1
      | unarySurroundA left right =>
        dsimp only at h
        rcases hsx : (parseFuns n).sexprParser s with _ | ⟨arg, s1⟩
        · rw [hsx] at h
          dsimp only at h
          exact Option.noConfusion h
        · rw [hsx] at h
          dsimp only at h
          simp only [Option.some.injEq, Prod.mk.injEq] at h
          rw [← h.2]
          exact (ihSX s arg s1 hsx).1
      | unaryAttrA tag attr =>
        dsimp only at h
        rcases hsx : (parseFuns n).sexprParser s with _ | ⟨arg, s1⟩
        · rw [hsx] at h
          dsimp only at h
          exact Option.noConfusion h
        · rw [hsx] at h
          dsimp only at h
          simp only [Option.some.injEq, Prod.mk.injEq] at h
          rw [← h.2]
          exact (ihSX s arg s1 hsx).1
      | unaryCharTableA table =>
        dsimp only at h
        rcases hsx : (parseFuns n).sexprParser (s.pushCharTable table) with _ | ⟨r0, s1⟩
        · rw [hsx] at h
          dsimp only at h
          exact Option.noConfusion h
        · rw [hsx] at h
          dsimp only at h
          simp only [Option.some.injEq, Prod.mk.injEq] at h
          rw [← h.2]
          obtain ⟨hin, hct, hq, hstk⟩ := (ihSX _ r0 s1 hsx).1
          refine ⟨hin, ?_, hq, fun hs => ?_⟩
          · unfold Scanner.popCharTable Scanner.pushCharTable at *
            rw [hct]
            dsimp only
            exact List.dropLast_concat
          · have hs1 : stuck (s.pushCharTable table) :=
              (stuck_fields s (s.pushCharTable table) rfl rfl).mpr hs
            have hs2 := hstk hs1
            exact (stuck_fields s1 (s1.popCharTable) rfl rfl).mpr hs2
      | binaryEmbedA tag =>
        dsimp only at h
        rcases hsx : (parseFuns n).sexprParser s with _ | ⟨a1, s1⟩
        · rw [hsx] at h
          dsimp only at h
          exact Option.noConfusion h
        · rw [hsx] at h
          dsimp only at h
          rcases hsx2 : (parseFuns n).sexprParser s1 with _ | ⟨a2, s2⟩
          · rw [hsx2] at h
            dsimp only at h
            exact Option.noConfusion h
          · rw [hsx2] at h
            dsimp only at h
            simp only [Option.some.injEq, Prod.mk.injEq] at h
            rw [← h.2]
            exact Pre_trans _ _ _ (ihSX s a1 s1 hsx).1 (ihSX s1 a2 s2 hsx2).1
      | binaryAttrA tag attr =>
        dsimp only at h
        rcases hns : s.nextSymbol with ⟨sym1, s1⟩
        rw [hns] at h
        dsimp only at h
        rcases hsx : (parseFuns n).sexprParser s1 with _ | ⟨a2, s2⟩
        · rw [hsx] at h
          dsimp only at h
          exact Option.noConfusion h
        · rw [hsx] at h
          dsimp only at h
          simp only [Option.some.injEq, Prod.mk.injEq] at h
          rw [← h.2]
          have hP1 : Pre s s1 := by
            have := Pre_next s
            rw [hns] at this
            exact this
          exact Pre_trans _ _ _ hP1 (ihSX s1 a2 s2 hsx).1
      | matrixA lb =>
        dsimp only at h
        exact ihMP lb "" s r s' h


/-- C3 (amended): in every grammar procedure, the cursor at exit is greater
than or equal to the cursor at entry, or equal to the end-of-input sentinel
`-1` (which only the matrix parsing routines store, when they consume the
end-of-input marker). -/
theorem c3_pos_monotone_or_sentinel (n : Nat) :
    (∀ s r sym s', (parseFuns n).parseSExpr s = some (r, sym, s') →
      s.pos ≤ s'.pos ∨ s'.pos = -1) ∧
    (∀ s r s', (parseFuns n).sexprParser s = some (r, s') →
      s.pos ≤ s'.pos ∨ s'.pos = -1) ∧
    (∀ s r s', (parseFuns n).iexprParser s = some (r, s') →
      s.pos ≤ s'.pos ∨ s'.pos = -1) ∧
    (∀ res s r s', (parseFuns n).exprParser res s = some (r, s') →
      s.pos ≤ s'.pos ∨ s'.pos = -1) ∧
    (∀ lb res s r s', (parseFuns n).matrixParser lb res s = some (r, s') →
      s.pos ≤ s'.pos ∨ s'.pos = -1) ∧
    (∀ res s r s', (parseFuns n).matrixRowParser res s = some (r, s') →
      s.pos ≤ s'.pos ∨ s'.pos = -1) ∧
    (∀ act s r s', (parseFuns n).runParser act s = some (r, s') →
      s.pos ≤ s'.pos ∨ s'.pos = -1) := by
  obtain ⟨hPS, hSX, hIX, hEX, hMP, hMR, hRP⟩ := pres n
  exact ⟨fun s r sym s' h => ((hPS s r sym s' h).1).2.2.1.1,
    fun s r s' h => ((hSX s r s' h).1).2.2.1.1,
    fun s r s' h => ((hIX s r s' h).1).2.2.1.1,
    fun res s r s' h => ((hEX res s r s' h).1).2.2.1.1,
    fun lb res s r s' h => (hMP lb res s r s' h).2.2.1.1,
    fun res s r s' h => ((hMR res s r s' h).1).2.2.1.1,
    fun act s r s' h => (hRP act s r s' h).2.2.1.1⟩

/-- C3 witness: a concrete run of the full-expression parser. -/
theorem c3_pos_monotone_witness :
    ((parseFuns 11).exprParser "" ⟨"a".toList, 0, []⟩ =
      some ("<mi>a</mi>", ⟨"a".toList, 1, []⟩)) ∧
    ((0 : Int) ≤ 1 ∨ (1 : Int) = -1) :=
  ⟨rfl, (c3_pos_monotone_or_sentinel 11).2.2.2.1 "" ⟨"a".toList, 0, []⟩
    "<mi>a</mi>" ⟨"a".toList, 1, []⟩ rfl⟩

/-- C8: a font-changing construct's renderer leaves the character-table
stack exactly as it found it (it pushes its table, parses one simple
expression — error fragments included — and pops unconditionally), and the
entry point's parse returns with the stack empty again. -/
theorem c8_char_table_stack_balanced :
    (∀ (n : Nat) (table : CharTable) (s : Scanner) (r : String) (s' : Scanner),
      (parseFuns n).runParser (.unaryCharTableA table) s = some (r, s') →
      s'.charTables = s.charTables) ∧
    (∀ (n : Nat) (input : List Char) (r : String) (s' : Scanner),
      (parseFuns n).exprParser "" ⟨input, 0, []⟩ = some (r, s') →
      s'.charTables = []) := by
  constructor
  · intro n table s r s' h
    exact ((pres n).2.2.2.2.2.2 _ _ _ _ h).2.1
  · intro n input r s' h
    exact ((pres n).2.2.2.1 _ _ _ _ h).1.2.1

/-- C8 witness: the `bbb` renderer on input `x`, and the resulting stack
equality. -/
theorem c8_char_table_stack_witness :
    ((parseFuns 10).runParser (.unaryCharTableA bbbTable) ⟨"x".toList, 0, []⟩ =
      some ("<mi>" ++ uchar 0x1D569 ++ "</mi>", ⟨"x".toList, 1, []⟩)) ∧
    (Scanner.mk "x".toList 1 []).charTables = (Scanner.mk "x".toList 0 []).charTables :=
  ⟨rfl, c8_char_table_stack_balanced.1 10 bbbTable ⟨"x".toList, 0, []⟩
    ("<mi>" ++ uchar 0x1D569 ++ "</mi>") ⟨"x".toList, 1, []⟩ rfl⟩


/-- Rendering a bracket symbol consumes one unit of fuel and no input. -/
theorem runParser_brA (m : Nat) (o : Option String) (s : Scanner) :
    (parseFuns (m + 1)).runParser (.brA o) s = some (brText o, s) := rfl

/-- An action recognized as a bracket rendering is a `brA`. -/
theorem isBr_exists (act : SymAction) (h : act.isBr = true) :
    ∃ o, act = .brA o := by
  cases act <;> first
    | exact ⟨_, rfl⟩
    | exact absurd h (by simp [SymAction.isBr])

/-- Pushing a character table does not change the remaining input. -/
theorem rem_push (s : Scanner) (t : CharTable) : rem (s.pushCharTable t) = rem s := rfl

/-- Peeking after an explicit whitespace skip sees the same symbol. -/
theorem peek_skip_idem (s : Scanner) :
    ((s.skipWhitespace).1).peekSymbol = s.peekSymbol := by
  unfold Scanner.peekSymbol
  rw [skip_idem]


/-- Fuel sufficiency: each of the seven grammar procedures returns a result
(`some`) whenever its fuel exceeds seven times the remaining input length
plus a per-procedure constant.  Together with the preservation invariant
this is the termination argument for the source's unbounded recursion. -/
theorem fuelSuff (n : Nat) :
    (∀ s, 7 * rem s + 2 ≤ n → ((parseFuns n).parseSExpr s).isSome = true) ∧
    (∀ s, 7 * rem s + 3 ≤ n → ((parseFuns n).sexprParser s).isSome = true) ∧
    (∀ s, 7 * rem s + 3 ≤ n → ((parseFuns n).iexprParser s).isSome = true) ∧
    (∀ res s, 7 * rem s + 4 ≤ n → ((parseFuns n).exprParser res s).isSome = true) ∧
    (∀ lb res s, 7 * rem s + 6 ≤ n → ((parseFuns n).matrixParser lb res s).isSome = true) ∧
    (∀ res s, 7 * rem s + 5 ≤ n → ((parseFuns n).matrixRowParser res s).isSome = true) ∧
    (∀ act s, 7 * rem s + 7 ≤ n → ((parseFuns n).runParser act s).isSome = true) := by
  induction n with
  | zero =>
    refine ⟨?_, ?_, ?_, ?_, ?_, ?_, ?_⟩ <;>
      · intros
        omega
  | succ n ih =>
    obtain ⟨ihPS, ihSX, ihIX, ihEX, ihMP, ihMR, ihRP⟩ := ih
    obtain ⟨prPS, prSX, prIX, prEX, prMP, prMR, prRP⟩ := pres n
    refine ⟨?_, ?_, ?_, ?_, ?_, ?_, ?_⟩
    · -- parseSExpr
      intro s hb
      show ((stepFuns (parseFuns n)).parseSExpr s).isSome = true
      unfold stepFuns
      dsimp only
      by_cases hst : stuck s
      · obtain ⟨hns, _⟩ := next_stuck s hst
        rw [hns]
        dsimp only
        rw [if_neg (by simp [eof] : ¬ AsciiMath.eof.kind = SymbolKind.LeftBracket)]
        obtain ⟨m, rfl⟩ : ∃ m, n = m + 1 := ⟨n - 1, by omega⟩
        rw [show AsciiMath.eof.action = SymAction.emptyA from rfl, runParser_emptyA]
        rfl
      · obtain ⟨hkind, hlt, h0⟩ := next_not_stuck s hst
        rcases hns : s.nextSymbol with ⟨sym, s1⟩
        rw [hns] at hkind hlt
        dsimp only at hkind hlt ⊢
        have hrp : ((parseFuns n).runParser sym.action s1).isSome = true :=
          ihRP _ s1 (by omega)
        by_cases hlb : sym.kind = SymbolKind.LeftBracket
        · rw [if_pos hlb]
          obtain ⟨⟨lbrac, s2⟩, hr⟩ := Option.isSome_iff_exists.mp hrp
          rw [hr]
          dsimp only
          have hr2 : rem s2 ≤ rem s1 := Pre_rem _ _ (prRP _ _ _ _ hr)
          rcases hpk : s2.peekSymbol with ⟨sym2, pos2, s3⟩
          dsimp only
          have hs3 : s3 = ((s2.skipWhitespace).1) := by
            have h := peek_scanner s2
            rw [hpk] at h
            exact h
          have hr3 : rem s3 ≤ rem s2 := by
            rw [hs3]
            exact Pre_rem _ _ (Pre_skip s2)
          have hinner : (if sym2.kind = SymbolKind.RightBracket then some ("", s3)
              else (parseFuns n).exprParser "" s3).isSome = true := by
            split
            · rfl
            · exact ihEX "" s3 (by omega)
          obtain ⟨⟨exp, s4⟩, hin⟩ := Option.isSome_iff_exists.mp hinner
          rw [hin]
          dsimp only
          have hr4 : rem s4 ≤ rem s3 := by
            by_cases hrb : sym2.kind = SymbolKind.RightBracket
            · rw [if_pos hrb] at hin
              simp only [Option.some.injEq, Prod.mk.injEq] at hin
              rw [hin.2]
            · rw [if_neg hrb] at hin
              exact Pre_rem _ _ (prEX _ _ _ _ hin).1
          rcases hns2 : s4.nextSymbol with ⟨sym2b, s5⟩
          dsimp only
          have hr5 : rem s5 ≤ rem s4 := by
            have h := Pre_next s4
            rw [hns2] at h
            exact Pre_rem _ _ h
          have hrp2 : ((parseFuns n).runParser
              (if sym2b.kind = SymbolKind.RightBracket then sym2b
                else error "Missing closing paren").action s5).isSome = true :=
            ihRP _ s5 (by omega)
          obtain ⟨⟨rbrac, s6⟩, hr6⟩ := Option.isSome_iff_exists.mp hrp2
          rw [hr6]
          rfl
        · rw [if_neg hlb]
          obtain ⟨⟨r, s2⟩, hr⟩ := Option.isSome_iff_exists.mp hrp
          rw [hr]
          rfl
    · -- sexprParser
      intro s hb
      show ((stepFuns (parseFuns n)).sexprParser s).isSome = true
      unfold stepFuns
      dsimp only
      obtain ⟨⟨r0, sym, s1⟩, hps⟩ :=
        Option.isSome_iff_exists.mp (ihPS s (by omega))
      rw [hps]
      rfl
    · -- iexprParser
      intro s hb
      show ((stepFuns (parseFuns n)).iexprParser s).isSome = true
      unfold stepFuns
      dsimp only
      obtain ⟨⟨res, sym, s1⟩, hps⟩ := Option.isSome_iff_exists.mp (ihPS s (by omega))
      rw [hps]
      dsimp only
      have hr1 : rem s1 ≤ rem s := Pre_rem _ _ (prPS _ _ _ _ hps).1
      rcases hpk : s1.peekSymbol with ⟨next, pos, s2⟩
      dsimp only
      by_cases hu : next.input = "_"
      · rw [if_pos hu]
        have hkind : next.kind ≠ SymbolKind.Eof := by
          intro hk
          have he := peek_kind_eof s1 (by rw [hpk]; exact hk)
          rw [hpk] at he
          dsimp only at he
          rw [he] at hu
          exact absurd hu (by simp [eof])
        obtain ⟨hpre2, hlt2, hst1⟩ := Pre_commit s1 next pos s2 hpk hkind
        obtain ⟨⟨sb, s3⟩, hsx⟩ := Option.isSome_iff_exists.mp
          (ihSX { s2 with pos := pos } (by omega))
        rw [hsx]
        dsimp only
        have hr3 : rem s3 ≤ rem { s2 with pos := pos } := Pre_rem _ _ (prSX _ _ _ hsx).1
        rcases hpk2 : s3.peekSymbol with ⟨n2, p2, s4⟩
        dsimp only
        by_cases hv : n2.input = "^"
        · rw [if_pos hv]
          have hkind2 : n2.kind ≠ SymbolKind.Eof := by
            intro hk
            have he := peek_kind_eof s3 (by rw [hpk2]; exact hk)
            rw [hpk2] at he
            dsimp only at he
            rw [he] at hv
            exact absurd hv (by simp [eof])
          obtain ⟨hpre4, hlt4, hst3⟩ := Pre_commit s3 n2 p2 s4 hpk2 hkind2
          obtain ⟨⟨sp, s6⟩, hsx2⟩ := Option.isSome_iff_exists.mp
            (ihSX { s4 with pos := p2 } (by omega))
          rw [hsx2]
          rfl
        · rw [if_neg hv]
          rfl
      · rw [if_neg hu]
        dsimp only
        by_cases hv : next.input = "^"
        · rw [if_pos hv]
          have hkind : next.kind ≠ SymbolKind.Eof := by
            intro hk
            have he := peek_kind_eof s1 (by rw [hpk]; exact hk)
            rw [hpk] at he
            dsimp only at he
            rw [he] at hv
            exact absurd hv (by simp [eof])
          obtain ⟨hpre2, hlt2, hst1⟩ := Pre_commit s1 next pos s2 hpk hkind
          obtain ⟨⟨sp, s6⟩, hsx2⟩ := Option.isSome_iff_exists.mp
            (ihSX { s2 with pos := pos } (by omega))
          rw [hsx2]
          rfl
        · rw [if_neg hv]
          rfl
    · -- exprParser
      intro res s hb
      show ((stepFuns (parseFuns n)).exprParser res s).isSome = true
      unfold stepFuns
      dsimp only
      obtain ⟨⟨exp, s1⟩, hix⟩ := Option.isSome_iff_exists.mp (ihIX s (by omega))
      rw [hix]
      dsimp only
      have hr1 : rem s1 ≤ rem s := Pre_rem _ _ (prIX _ _ _ hix).1
      rcases hpk : s1.peekSymbol with ⟨next, pos, s2⟩
      dsimp only
      by_cases hterm : terminators.contains next.kind = true
      · rw [if_pos hterm]
        rfl
      · rw [if_neg hterm]
        have hkind : next.kind ≠ SymbolKind.Eof := by
          intro hk
          rw [hk] at hterm
          exact hterm contains_eof_true
        have hst1 : ¬ stuck s1 := by
          intro h
          obtain ⟨he, _, _⟩ := peek_stuck_eq s1 next pos s2 hpk h
          rw [he] at hkind
          exact hkind rfl
        have hst : ¬ stuck s := fun h => hst1 ((prIX _ _ _ hix).1.2.2.2 h)
        have hlt1 : rem s1 < rem s := (prIX _ _ _ hix).2 hst
        have hs2 : s2 = ((s1.skipWhitespace).1) := by
          have h := peek_scanner s1
          rw [hpk] at h
          exact h
        have hr2 : rem s2 ≤ rem s1 := by
          rw [hs2]
          exact Pre_rem _ _ (Pre_skip s1)
        by_cases hsl : next.input = "/"
        · rw [if_pos hsl]
          obtain ⟨hpre2, hlt2, hstA⟩ := Pre_commit s1 next pos s2 hpk hkind
          obtain ⟨⟨quot, s3⟩, hix2⟩ := Option.isSome_iff_exists.mp
            (ihIX { s2 with pos := pos } (by omega))
          rw [hix2]
          dsimp only
          have hr3 : rem s3 ≤ rem { s2 with pos := pos } := Pre_rem _ _ (prIX _ _ _ hix2).1
          rcases hpk2 : s3.peekSymbol with ⟨next2, p2, s4⟩
          dsimp only
          have hs4 : s4 = ((s3.skipWhitespace).1) := by
            have h := peek_scanner s3
            rw [hpk2] at h
            exact h
          have hr4 : rem s4 ≤ rem s3 := by
            rw [hs4]
            exact Pre_rem _ _ (Pre_skip s3)
          by_cases hterm2 : terminators.contains next2.kind = true
          · rw [if_pos hterm2]
            rfl
          · rw [if_neg hterm2]
            exact ihEX _ s4 (by omega)
        · rw [if_neg hsl]
          exact ihEX _ s2 (by omega)
    · -- matrixParser
      intro lb res s hb
      show ((stepFuns (parseFuns n)).matrixParser lb res s).isSome = true
      unfold stepFuns
      dsimp only
      rcases hpk : s.peekSymbol with ⟨sym, pos, s1⟩
      dsimp only
      by_cases hexit : sym.kind = SymbolKind.Eof ∨ sym.kind = SymbolKind.MatrixRightBracket
      · rw [if_pos hexit]
        obtain ⟨m, rfl⟩ : ∃ m, n = m + 1 := ⟨n - 1, by omega⟩
        rcases hexit with hk | hk
        · have he := peek_kind_eof s (by rw [hpk]; exact hk)
          rw [hpk] at he
          dsimp only at he
          rw [he]
          rw [show AsciiMath.eof.action = SymAction.emptyA from rfl, runParser_emptyA]
          rfl
        · have hbr := peek_kind_mrb s (by rw [hpk]; exact hk)
          rw [hpk] at hbr
          dsimp only at hbr
          obtain ⟨o, ho⟩ := isBr_exists _ hbr
          rw [ho, runParser_brA]
          rfl
      · rw [if_neg hexit]
        have hkind : sym.kind ≠ SymbolKind.Eof := fun hk => hexit (Or.inl hk)
        have hst : ¬ stuck s := by
          intro h
          obtain ⟨he, _, _⟩ := peek_stuck_eq s sym pos s1 hpk h
          rw [he] at hkind
          exact hkind rfl
        have hs1 : s1 = ((s.skipWhitespace).1) := by
          have h := peek_scanner s
          rw [hpk] at h
          exact h
        have hr1 : rem s1 ≤ rem s := by
          rw [hs1]
          exact Pre_rem _ _ (Pre_skip s)
        obtain ⟨⟨row, s2⟩, hmr⟩ := Option.isSome_iff_exists.mp (ihMR "" s1 (by omega))
        rw [hmr]
        dsimp only
        have hst1 : ¬ stuck s1 := by
          rw [hs1, stuck_skip_iff]
          exact hst
        have hpk1 : (s1.peekSymbol).1.kind ≠ SymbolKind.MatrixRightBracket := by
          rw [hs1, peek_skip_idem, hpk]
          intro hk
          exact hexit (Or.inr hk)
        have hlt2 : rem s2 < rem s1 := (prMR _ _ _ _ hmr).2 hst1 hpk1
        exact ihMP lb _ s2 (by omega)
    · -- matrixRowParser
      intro res s hb
      show ((stepFuns (parseFuns n)).matrixRowParser res s).isSome = true
      unfold stepFuns
      dsimp only
      rcases hpk : s.peekSymbol with ⟨sym, pos, s1⟩
      dsimp only
      by_cases hexit : sym.kind = SymbolKind.Eof ∨ sym.kind = SymbolKind.MatrixRowSep
      · rw [if_pos hexit]
        rfl
      · rw [if_neg hexit]
        by_cases hrb : sym.kind = SymbolKind.MatrixRightBracket
        · rw [if_pos hrb]
          rfl
        · rw [if_neg hrb]
          have hkind : sym.kind ≠ SymbolKind.Eof := fun hk => hexit (Or.inl hk)
          have hst : ¬ stuck s := by
            intro h
            obtain ⟨he, _, _⟩ := peek_stuck_eq s sym pos s1 hpk h
            rw [he] at hkind
            exact hkind rfl
          have hs1 : s1 = ((s.skipWhitespace).1) := by
            have h := peek_scanner s
            rw [hpk] at h
            exact h
          have hr1 : rem s1 ≤ rem s := by
            rw [hs1]
            exact Pre_rem _ _ (Pre_skip s)
          obtain ⟨⟨cell, s2⟩, hex⟩ := Option.isSome_iff_exists.mp (ihEX "" s1 (by omega))
          rw [hex]
          dsimp only
          have hst1 : ¬ stuck s1 := by
            rw [hs1, stuck_skip_iff]
            exact hst
          have hlt2 : rem s2 < rem s1 := (prEX _ _ _ _ hex).2 hst1
          exact ihMR _ s2 (by omega)
    · -- runParser
      intro act s hb
      show ((stepFuns (parseFuns n)).runParser act s).isSome = true
      unfold stepFuns
      dsimp only
      cases act with
      | textA content => rfl
      | numberA str => rfl
      | errorA msg => rfl
      | emptyA => rfl
      | identA output => rfl
      | operA output => rfl
      | textOperA output => rfl
      | brA output => rfl
      | unaryA operStr =>
        dsimp only
        obtain ⟨⟨arg, s1⟩, hsx⟩ := Option.isSome_iff_exists.mp (ihSX s (by omega))
        rw [hsx]
        rfl
      | unaryEmbedA tag =>
        dsimp only
        obtain ⟨⟨arg, s1⟩, hsx⟩ := Option.isSome_iff_exists.mp (ihSX s (by omega))
        rw [hsx]
        rfl
      | unaryEmbedWithA tag arg2 =>
        dsimp only
        obtain ⟨⟨arg, s1⟩, hsx⟩ := Option.isSome_iff_exists.mp (ihSX s (by omega))
        rw [hsx]
        rfl
      | unarySurroundA left right =>
        dsimp only
        obtain ⟨⟨arg, s1⟩, hsx⟩ := Option.isSome_iff_exists.mp (ihSX s (by omega))
        rw [hsx]
        rfl
      | unaryAttrA tag attr =>
        dsimp only
        obtain ⟨⟨arg, s1⟩, hsx⟩ := Option.isSome_iff_exists.mp (ihSX s (by omega))
        rw [hsx]
        rfl
      | unaryCharTableA table =>
        dsimp only
        obtain ⟨⟨arg, s1⟩, hsx⟩ := Option.isSome_iff_exists.mp
          (ihSX (s.pushCharTable table) (by rw [rem_push]; omega))
        rw [hsx]
        rfl
      | binaryEmbedA tag =>
        dsimp only
        obtain ⟨⟨a1, s1⟩, hsx⟩ := Option.isSome_iff_exists.mp (ihSX s (by omega))
        rw [hsx]
        dsimp only
        have hr1 : rem s1 ≤ rem s := Pre_rem _ _ (prSX _ _ _ hsx).1
        obtain ⟨⟨a2, s2⟩, hsx2⟩ := Option.isSome_iff_exists.mp (ihSX s1 (by omega))
        rw [hsx2]
        rfl
      | binaryAttrA tag attr =>
        dsimp only
        rcases hns : s.nextSymbol with ⟨sym1, s1⟩
        dsimp only
        have hr1 : rem s1 ≤ rem s := by
          have h1 := Pre_next s
          rw [hns] at h1
          exact Pre_rem _ _ h1
        obtain ⟨⟨a2, s2⟩, hsx⟩ := Option.isSome_iff_exists.mp (ihSX s1 (by omega))
        rw [hsx]
        rfl
      | matrixA lb =>
        dsimp only
        exact ihMP lb "" s (by omega)



/-- C7: the translation entry point terminates (returns a result) for every
input string and either display flag: the fuel provided by `enoughFuel` is
never exhausted, because every scanning branch that returns a
non-end-of-input symbol strictly advances the cursor, making the recursion
well-founded on the remaining input length. -/
theorem c7_translation_terminates (input : String) (inline : Bool) :
    (asciiToMathML input inline).isSome = true := by
  unfold asciiToMathML
  have hrem : rem ⟨input.toList, 0, []⟩ = input.toList.length := by
    unfold rem
    simp
  have h : ((parseFuns (enoughFuel input.toList.length)).exprParser ""
      ⟨input.toList, 0, []⟩).isSome = true :=
    (fuelSuff (enoughFuel input.toList.length)).2.2.2.1 ""
      ⟨input.toList, 0, []⟩ (by rw [hrem]; unfold enoughFuel; omega)
  obtain ⟨⟨r, s1⟩, hx⟩ := Option.isSome_iff_exists.mp h
  rw [hx]
  rfl

end AsciiMath
